import Mathlib

/-!
The Markdown converter of libcpp-html-to-md, embedded in Lean.

A shallow embedding of `lklibs::MarkdownConverter` (`src/libcpp-html-to-md.hpp`).

* A `std::string` is a Lean `String`; every `Char` stands for one C++ `char`, so
  `size()` is `String.length`.
* An `xmlNode*` that is walked through `->next` is the list of the node and its
  following siblings; `nullptr` is `[]`.
* The member `markdown` is threaded through the functions that write to it.
* `int` and `size_t` counters are `Nat`; `std::string::npos + 1` wraps modulo `2 ^ 64`.
-/

namespace lklibs

/-! ## Document tree (libxml2) -/

/-- The node kinds of libxml2 the converter tells apart; every other kind is `XML_OTHER_NODE`. -/
inductive xmlElementType where
  | XML_ELEMENT_NODE
  | XML_TEXT_NODE
  | XML_OTHER_NODE
  deriving DecidableEq, Repr

/-- A node of the parsed tree: kind, tag name, text content, attributes, children in
document order. -/
inductive xmlNode where
  | mk (type : xmlElementType) (name : String) (content : String)
      (properties : List (String × String)) (children : List xmlNode)

/-- Field `type` of a node. -/
def xmlNode.type : xmlNode → xmlElementType
  | .mk t _ _ _ _ => t

/-- Field `name` of a node. -/
def xmlNode.name : xmlNode → String
  | .mk _ n _ _ _ => n

/-- Field `content` of a node. -/
def xmlNode.content : xmlNode → String
  | .mk _ _ c _ _ => c

/-- Field `properties` of a node. -/
def xmlNode.properties : xmlNode → List (String × String)
  | .mk _ _ _ p _ => p

/-- Field `children` of a node: the first child and its following siblings. -/
def xmlNode.children : xmlNode → List xmlNode
  | .mk _ _ _ _ c => c

/-- Function `xmlGetProp`: the value of the attribute, if the node has it. -/
def xmlGetProp (node : xmlNode) (attrName : String) : Option String :=
  node.properties.lookup attrName

/-! ## `std::string` operations -/

/-- Constant `std::string::npos`, the largest `size_t`. -/
def npos : Nat := 2 ^ 64 - 1

/-- Constructor `std::string(n, c)`: `n` copies of `c`. -/
def stringOf (n : Nat) (c : Char) : String :=
  String.mk (List.replicate n c)

/-- Scan of `std::string::find(c)` from index `i` on. -/
def findFrom (c : Char) : List Char → Nat → Nat
  | [], _ => npos
  | x :: xs, i => if x = c then i else findFrom c xs (i + 1)

/-- Method `std::string::find(c)`: index of the first `c`, or `npos`. -/
def find (s : String) (c : Char) : Nat :=
  findFrom c s.data 0

/-- Method `std::string::find_last_not_of(chars)`: scanning backwards from the last
character, the index of the first character met that is not in `chars`, or `npos`. -/
def find_last_not_of (s : String) (chars : String) : Nat :=
  match s.data.reverse.dropWhile (fun c => decide (c ∈ chars.data)) with
  | [] => npos
  | _ :: rest => rest.length

/-- Method `std::string::erase(pos)`: drops everything from index `pos` on. -/
def erase (s : String) (pos : Nat) : String :=
  String.mk (s.data.take pos)

/-- Function `isdigit` of the C locale. -/
def isdigit (c : Char) : Bool :=
  decide ('0'.toNat ≤ c.toNat) && decide (c.toNat ≤ '9'.toNat)

/-- The statement `content.erase(content.find_last_not_of(" \n\r\t") + 1)`, which
`traverse` and `getNodeContent` both apply to the content of a text node. -/
def eraseTrailing (content : String) : String :=
  erase content ((find_last_not_of content " \n\r\t" + 1) % 2 ^ 64)

/-! ## `getAttribute` and `getNodeContent` -/

/-- Method `MarkdownConverter::getAttribute`. -/
def getAttribute (node : xmlNode) (attrName : String) : String :=
  match xmlGetProp node attrName with
  | some attr => attr
  | none => ""

mutual
/-- Method `MarkdownConverter::getNodeContent`: the loop over `node->children`. -/
def getNodeContent : xmlNode → String
  | .mk _ _ _ _ children => getNodeContentLoop children
termination_by structural n => n
/-- The `for` loop of `getNodeContent`, from `current` to the last sibling; the
accumulated `oss` is the concatenation of what each iteration writes. -/
def getNodeContentLoop : List xmlNode → String
  | [] => ""
  | current :: next =>
    (if current.type = .XML_ELEMENT_NODE then
      let tagName := current.name
      if tagName = "" then
        ""
      else if tagName = "strong" ∨ tagName = "b" then
        "**" ++ getNodeContent current ++ "**"
      else if tagName = "em" ∨ tagName = "i" then
        "*" ++ getNodeContent current ++ "*"
      else if tagName = "a" then
        let href := getAttribute current "href"
        let text := getNodeContent current
        "[" ++ text ++ "](" ++ href ++ ")"
      else if tagName = "img" then
        let src := getAttribute current "src"
        let alt := getAttribute current "alt"
        "![" ++ alt ++ "](" ++ src ++ ")"
      else if tagName = "code" then
        "`" ++ getNodeContent current ++ "`"
      else
        getNodeContent current
    else if current.type = .XML_TEXT_NODE then
      eraseTrailing current.content
    else
      "") ++ getNodeContentLoop next
termination_by structural l => l
end

/-! ## Lists -/

mutual
/-- Method `MarkdownConverter::traverseList`: `index` starts at 1, then the loop over
`listNode->children`. -/
def traverseList : xmlNode → Bool → Nat → String → String
  | .mk _ _ _ _ children, ordered, depth, markdown =>
    (traverseListItems children ordered depth 1 markdown).2
termination_by structural n => n
/-- The outer `for` loop of `traverseList`; the state is `(index, markdown)`. -/
def traverseListItems : List xmlNode → Bool → Nat → Nat → String → Nat × String
  | [], _, _, index, markdown => (index, markdown)
  | item :: next, ordered, depth, index, markdown =>
    let st := traverseListItem item ordered depth index markdown
    traverseListItems next ordered depth st.1 st.2
termination_by structural l => l
/-- One iteration of the outer loop of `traverseList`, on `item`. -/
def traverseListItem : xmlNode → Bool → Nat → Nat → String → Nat × String
  | .mk type name _content _properties children, ordered, depth, index, markdown =>
    if type = .XML_ELEMENT_NODE ∧ name = "li" then
      let item := xmlNode.mk type name _content _properties children
      let st : Nat × String :=
        if ordered then
          (index + 1, stringOf (depth * 2) ' ' ++ (toString index ++ ". "))
        else
          (index, stringOf (depth * 2) ' ' ++ "- ")
      let markdown := markdown ++ (st.2 ++ getNodeContent item ++ "\n")
      (st.1, traverseListChildren children depth markdown)
    else
      (index, markdown)
termination_by structural n => n
/-- The inner `for` loop of `traverseList`, over the children of an item. -/
def traverseListChildren : List xmlNode → Nat → String → String
  | [], _, markdown => markdown
  | child :: next, depth, markdown =>
    traverseListChildren next depth
      (if child.type = .XML_ELEMENT_NODE then
        let childName := child.name
        if childName = "ul" ∨ childName = "ol" then
          traverseList child (decide (childName = "ol")) (depth + 1) markdown
        else
          markdown
      else
        markdown)
termination_by structural l => l
end

/-! ## Tables -/

/-- Method `MarkdownConverter::extractRow`: the text of every `td` or `th` child. -/
def extractRow (tr : xmlNode) : List String :=
  tr.children.foldl
    (fun currentRow cell =>
      if cell.type = .XML_ELEMENT_NODE then
        let cellName := cell.name
        if cellName = "td" ∨ cellName = "th" then
          currentRow ++ [getNodeContent cell]
        else
          currentRow
      else
        currentRow)
    []

/-- Method `std::vector<size_t>::resize(n, value)`. -/
def resize (v : List Nat) (n : Nat) (value : Nat) : List Nat :=
  v.take n ++ List.replicate (n - v.length) value

/-- Method `MarkdownConverter::updateColumnWidths`; `v[i]` is `v.getD i _`. -/
def updateColumnWidths (row : List String) (columnWidths : List Nat) : List Nat :=
  let columnWidths :=
    if row.length > columnWidths.length then resize columnWidths row.length 0 else columnWidths
  (List.range row.length).foldl
    (fun columnWidths i =>
      columnWidths.set i (max (columnWidths.getD i 0) (row.getD i "").length))
    columnWidths

/-- Method `MarkdownConverter::padString`. -/
def padString (str : String) (width : Nat) : String :=
  if str.length ≥ width then
    str
  else
    str ++ stringOf (width - str.length) ' '

/-- The block of `traverseTable` that follows each `extractRow`: a non-empty row is
pushed on `rows` and widens `columnWidths`. The state is `(rows, columnWidths)`. -/
def collectRow (tr : xmlNode) (st : List (List String) × List Nat) :
    List (List String) × List Nat :=
  let currentRow := extractRow tr
  if currentRow ≠ [] then
    (st.1 ++ [currentRow], updateColumnWidths currentRow st.2)
  else
    st

/-- The first loop of `traverseTable`, over `tableNode->children`, with the loop over
the rows of a `thead`, `tbody` or `tfoot` inside. -/
def collectRows (children : List xmlNode) (st : List (List String) × List Nat) :
    List (List String) × List Nat :=
  children.foldl
    (fun st child =>
      if child.type = .XML_ELEMENT_NODE then
        let childName := child.name
        if childName = "thead" ∨ childName = "tbody" ∨ childName = "tfoot" then
          child.children.foldl
            (fun st tr =>
              if tr.type = .XML_ELEMENT_NODE ∧ tr.name = "tr" then collectRow tr st else st)
            st
        else if childName = "tr" then
          collectRow child st
        else
          st
      else
        st)
    st

/-- The vector `separator` of `traverseTable`: `columnWidths.size()` empty strings, then
entry `i` is set to `columnWidths[i]` dashes. -/
def tableSeparator (columnWidths : List Nat) : List String :=
  (List.range columnWidths.length).foldl
    (fun separator i => separator.set i (stringOf (columnWidths.getD i 0) '-'))
    (List.replicate columnWidths.length "")

/-- The cell loop of `traverseTable`, the same for the header and for a data row:
`markdown += padString(row[i], columnWidths[i]) + " | "` for every index of `row`. -/
def emitCells (row : List String) (columnWidths : List Nat) (markdown : String) : String :=
  (List.range row.length).foldl
    (fun markdown i => markdown ++ (padString (row.getD i "") (columnWidths.getD i 0) ++ " | "))
    markdown

/-- Method `MarkdownConverter::traverseTable`. -/
def traverseTable (tableNode : xmlNode) (markdown : String) : String :=
  let st := collectRows tableNode.children ([], [])
  let rows := st.1
  let columnWidths := st.2
  if rows = [] then
    markdown
  else
    let header := rows.getD 0 []
    let separator := tableSeparator columnWidths
    let markdown := markdown ++ "| "
    let markdown := emitCells header columnWidths markdown
    let markdown := markdown ++ "\n"
    let markdown := markdown ++ "| "
    let markdown := separator.foldl (fun markdown sep => markdown ++ (sep ++ " | ")) markdown
    let markdown := markdown ++ "\n"
    (List.range' 1 (rows.length - 1)).foldl
      (fun markdown r =>
        let markdown := markdown ++ "| "
        let markdown := emitCells (rows.getD r []) columnWidths markdown
        markdown ++ "\n")
      markdown

/-- The cell loop of `traverseTable` with every `operator[]` checked: `none` stands for an
access out of range, which is undefined behaviour in C++. -/
def emitCellsChecked (row : List String) (columnWidths : List Nat) (markdown : String) :
    Option String :=
  (List.range row.length).foldlM
    (fun markdown i => do
      let cell ← row[i]?
      let width ← columnWidths[i]?
      pure (markdown ++ (padString cell width ++ " | ")))
    markdown

/-- Method `MarkdownConverter::traverseTable` with every `operator[]` of the emission
(`rows[0]`, `header[i]`, `rows[r]`, `rows[r][c]`, `columnWidths[i]`, `columnWidths[c]`)
checked: `none` stands for an access out of range. -/
def traverseTableChecked (tableNode : xmlNode) (markdown : String) : Option String :=
  let st := collectRows tableNode.children ([], [])
  let rows := st.1
  let columnWidths := st.2
  if rows = [] then
    some markdown
  else do
    let header ← rows[0]?
    let separator := tableSeparator columnWidths
    let markdown := markdown ++ "| "
    let markdown ← emitCellsChecked header columnWidths markdown
    let markdown := markdown ++ "\n"
    let markdown := markdown ++ "| "
    let markdown := separator.foldl (fun markdown sep => markdown ++ (sep ++ " | ")) markdown
    let markdown := markdown ++ "\n"
    (List.range' 1 (rows.length - 1)).foldlM
      (fun markdown r => do
        let row ← rows[r]?
        let markdown := markdown ++ "| "
        let markdown ← emitCellsChecked row columnWidths markdown
        pure (markdown ++ "\n"))
      markdown

/-! ## Block dispatch and traversal -/

/-- Method `MarkdownConverter::handleElement`: the optional fragment and the state of
`markdown` after the call (the list and table branches write to it). -/
def handleElement (current : xmlNode) (tagName : String) (markdown : String) :
    Option String × String :=
  let st : String × String :=
    if find tagName 'h' = 0 ∧ tagName.length = 2 ∧ isdigit (tagName.data.getD 1 ' ') = true then
      let level := (tagName.data.getD 1 ' ').toNat - '0'.toNat
      (stringOf level '#' ++ " " ++ getNodeContent current ++ "\n\n", markdown)
    else if tagName = "p" then
      (getNodeContent current ++ "\n\n", markdown)
    else if tagName = "strong" ∨ tagName = "b" then
      ("**" ++ getNodeContent current ++ "**", markdown)
    else if tagName = "em" ∨ tagName = "i" then
      ("*" ++ getNodeContent current ++ "*", markdown)
    else if tagName = "a" then
      let href := getAttribute current "href"
      let text := getNodeContent current
      ("[" ++ text ++ "](" ++ href ++ ")", markdown)
    else if tagName = "img" then
      let src := getAttribute current "src"
      let alt := getAttribute current "alt"
      ("![" ++ alt ++ "](" ++ src ++ ")", markdown)
    else if tagName = "ul" ∨ tagName = "ol" then
      let ordered := decide (tagName = "ol")
      ("\n", traverseList current ordered 0 markdown)
    else if tagName = "pre" then
      ("```\n" ++ getNodeContent current ++ "\n```\n\n", markdown)
    else if tagName = "code" then
      ("`" ++ getNodeContent current ++ "`", markdown)
    else if tagName = "table" then
      ("\n", traverseTable current markdown)
    else
      ("", markdown)
  if st.1 ≠ "" then (some st.1, st.2) else (none, st.2)

mutual
/-- One iteration of the `for` loop of `MarkdownConverter::traverse`, on `current`. -/
def traverseNode : xmlNode → String → String
  | .mk type name content properties children, markdown =>
    if type = .XML_ELEMENT_NODE then
      let tagName := name
      if tagName = "" then
        markdown
      else
        match handleElement (.mk type name content properties children) tagName markdown with
        | (some tagContent, markdown) => markdown ++ tagContent
        | (none, markdown) => traverse children markdown
    else if type = .XML_TEXT_NODE then
      markdown ++ eraseTrailing content
    else
      traverse children markdown
termination_by structural n => n
/-- Method `MarkdownConverter::traverse`: the loop from `node` over its following
siblings. -/
def traverse : List xmlNode → String → String
  | [], markdown => markdown
  | current :: next, markdown => traverse next (traverseNode current markdown)
termination_by structural l => l
end

/-! ## Entry point -/

/-- The fields of a `MarkdownConverter`. -/
structure MarkdownConverter where
  htmlContent : String
  markdown : String

/-- Method `MarkdownConverter::convert`. The parser `htmlReadMemory` with
`xmlDocGetRootElement` is a parameter: `none` is a null document, otherwise the root
element with its following siblings. The result is the thrown message or the returned
string with the converter after the call. -/
def convert (htmlReadMemory : String → Option (List xmlNode)) (self : MarkdownConverter) :
    Except String (String × MarkdownConverter) :=
  let markdown := ""
  match htmlReadMemory self.htmlContent with
  | none => .error "Could not read HTML content."
  | some root =>
    let markdown := traverse root markdown
    .ok (markdown, { self with markdown := markdown })

/-! ## Test data -/

/-- An element node. -/
def elem (name : String) (children : List xmlNode) : xmlNode :=
  .mk .XML_ELEMENT_NODE name "" [] children

/-- A text node. -/
def txt (content : String) : xmlNode :=
  .mk .XML_TEXT_NODE "text" content [] []

/-- The tree of the end-to-end scenario of the specification. -/
def scenarioDocument : List xmlNode :=
  [elem "html" [elem "body"
    [elem "h1" [txt "Simple H1 Header"],
     elem "p" [txt "Simple Paragraph"],
     elem "h2" [txt "Another H2 Header"],
     elem "ol" [elem "li" [txt "First item"], elem "li" [txt "Second item"]],
     elem "table"
       [elem "tr" [elem "td" [txt "A"], elem "td" [txt "B"]],
        elem "tr" [elem "td" [txt "C"], elem "td" [txt "D"]]]]]]

/-- The tree of the document of `test.cpp`, with the whitespace-only text nodes between
the tags. -/
def testDocument : List xmlNode :=
  [elem "html"
    [txt "\n        ",
     elem "head" [txt "\n            ", elem "title" [txt "Test"], txt "\n        "],
     txt "\n        ",
     elem "body"
       [txt "\n            ",
        elem "h1" [txt "Simple H1 Header"],
        txt "\n            ",
        elem "p" [txt "Simple Paragraph"],
        txt "\n            ",
        elem "h2" [txt "Another H2 Header"],
        txt "\n            ",
        elem "ol"
          [txt "\n                ",
           elem "li" [txt "First item"],
           txt "\n                ",
           elem "li" [txt "Second item"],
           txt "\n            "],
        txt "\n\n            ",
        elem "table"
          [txt "\n                ",
           elem "tr"
             [txt "\n                    ",
              elem "td" [txt "Row 1, Cell 1"],
              txt "\n                    ",
              elem "td" [txt "Row 1, Cell 2"],
              txt "\n                "],
           txt "\n                ",
           elem "tr"
             [txt "\n                    ",
              elem "td" [txt "Row 2, Cell 1"],
              txt "\n                    ",
              elem "td" [txt "Row 2, Cell 2"],
              txt "\n                "],
           txt "\n            "],
        txt "\n        \n    \n"]]]

/-- A table with rows of different lengths and a row without cells. -/
def raggedTable : xmlNode :=
  elem "table"
    [elem "tr" [elem "td" [txt "a"]],
     elem "tbody" [elem "tr" [elem "th" [txt "bbb"], elem "td" [txt "cc"]], elem "tr" []],
     elem "tr" [elem "td" [txt "dddd"]]]

/-- The table of the document of `test.cpp`. -/
def testTable : xmlNode :=
  elem "table"
    [txt "\n                ",
     elem "tr"
       [txt "\n                    ",
        elem "td" [txt "Row 1, Cell 1"],
        txt "\n                    ",
        elem "td" [txt "Row 1, Cell 2"],
        txt "\n                "],
     txt "\n                ",
     elem "tr"
       [txt "\n                    ",
        elem "td" [txt "Row 2, Cell 1"],
        txt "\n                    ",
        elem "td" [txt "Row 2, Cell 2"],
        txt "\n                "],
     txt "\n            "]

/-- A table without rows. -/
def emptyTable : xmlNode :=
  elem "table" [txt " ", elem "tr" [], elem "tbody" [elem "tr" [txt "x"]]]

/-- The two rows of the table of `test.cpp`, as `tr` elements. -/
def testRow1 : xmlNode :=
  elem "tr" [elem "td" [txt "Row 1, Cell 1"], elem "td" [txt "Row 1, Cell 2"]]

/-- The second row of the table of `test.cpp`. -/
def testRow2 : xmlNode :=
  elem "tr" [elem "td" [txt "Row 2, Cell 1"], elem "td" [txt "Row 2, Cell 2"]]

/-! ## Definitions used to state the properties -/

/-- Concatenation of a list of strings, in order. -/
def concat : List String → String
  | [] => ""
  | s :: ss => s ++ concat ss

/-- The largest number of cells of any row. -/
def columnCount (rows : List (List String)) : Nat :=
  (rows.map List.length).foldr max 0

/-- The largest length of the cell at index `i`, over the rows that have a cell at index
`i` (0 when no row has one). -/
def columnWidth (rows : List (List String)) (i : Nat) : Nat :=
  ((rows.filterMap (fun r => r[i]?)).map String.length).foldr max 0

/-- What holds of `(rows, columnWidths)` all along the first loop of `traverseTable`. -/
def CollectInv (st : List (List String) × List Nat) : Prop :=
  st.2.length = columnCount st.1 ∧ (∀ i, st.2.getD i 0 = columnWidth st.1 i) ∧
    ∀ r ∈ st.1, r ≠ []

/-- The number of `li` elements among the nodes. -/
def countLi (l : List xmlNode) : Nat :=
  (l.filter (fun n => decide (n.type = .XML_ELEMENT_NODE ∧ n.name = "li"))).length

/-- A cell followed by the spaces that bring it to width `w`. -/
def padRight (s : String) (w : Nat) : String :=
  s ++ String.mk (List.replicate (w - s.length) ' ')

/-- The line of a row `r` of a table whose collected rows are `rows`: "| ", then every
cell of `r` padded to the width of its column and followed by " | ", then a line feed. -/
def tableLine (rows : List (List String)) (r : List String) : String :=
  "| " ++ concat (r.enum.map (fun p => padRight p.2 (columnWidth rows p.1) ++ " | ")) ++ "\n"

/-- The separator line of a table whose collected rows are `rows`: "| ", then for every
column as many dashes as the column is wide followed by " | ", then a line feed. -/
def separatorLine (rows : List (List String)) : String :=
  "| "
    ++ concat ((List.range (columnCount rows)).map
        (fun i => String.mk (List.replicate (columnWidth rows i) '-') ++ " | "))
    ++ "\n"

/-- The `tr` elements of a table with the given children, in document order: a child that
is a `tr` element, or the `tr` element children of a child that is a thead, tbody or tfoot
element. -/
def tableRowNodes : List xmlNode → List xmlNode
  | [] => []
  | child :: rest =>
    (if child.type = .XML_ELEMENT_NODE then
      if child.name = "thead" ∨ child.name = "tbody" ∨ child.name = "tfoot" then
        child.children.filter (fun tr => decide (tr.type = .XML_ELEMENT_NODE ∧ tr.name = "tr"))
      else if child.name = "tr" then
        [child]
      else
        []
    else
      []) ++ tableRowNodes rest

/-- The rows of the given `tr` elements that have at least one cell. -/
def nonEmptyRows (trs : List xmlNode) : List (List String) :=
  (trs.map extractRow).filter (fun r => decide (r ≠ []))

/-! ## Induction over a tree and its sibling lists -/

/-- Simultaneous induction over nodes and sibling lists. -/
theorem xmlNode.induction {P : xmlNode → Prop} {Q : List xmlNode → Prop}
    (hmk : ∀ t n c p ch, Q ch → P (.mk t n c p ch)) (hnil : Q [])
    (hcons : ∀ x xs, P x → Q xs → Q (x :: xs)) : (∀ n, P n) ∧ (∀ l, Q l) :=
  ⟨fun n => xmlNode.rec (motive_1 := P) (motive_2 := Q) hmk hnil hcons n,
   fun l => xmlNode.rec_1 (motive_1 := P) (motive_2 := Q) hmk hnil hcons l⟩

/-! ## Concatenation and loops that append -/

theorem concat_append (xs ys : List String) : concat (xs ++ ys) = concat xs ++ concat ys := by
  induction xs with
  | nil => simp [concat]
  | cons x xs ih => simp [concat, ih, String.append_assoc]

/-- A loop whose body appends `f x` to the accumulator appends the concatenation. -/
theorem foldl_append_eq {α : Type} (f : α → String) (l : List α) (md : String) :
    l.foldl (fun md x => md ++ f x) md = md ++ concat (l.map f) := by
  induction l generalizing md with
  | nil => simp [concat]
  | cons x xs ih => simp [concat, ih, String.append_assoc]

/-- An index loop over `l` reads the elements of `l` in order. -/
theorem range_map_getD {α : Type} (l : List α) (d : α) :
    (List.range l.length).map (fun i => (i, l.getD i d)) = l.enum := by
  apply List.ext_getElem
  · simp
  · intro n h1 h2
    simp at h1
    simp [List.getElem_enum, List.getD_eq_getElem?_getD, List.getElem?_eq_getElem h1]

theorem foldl_range_getD {α β : Type} (l : List α) (d : α) (g : β → Nat → α → β) (a : β) :
    (List.range l.length).foldl (fun acc i => g acc i (l.getD i d)) a
      = l.enum.foldl (fun acc p => g acc p.1 p.2) a := by
  rw [← range_map_getD l d, List.foldl_map]
/-! ## Lists only append to `markdown` -/

theorem traverseList_eq (t : xmlElementType) (n c : String) (p : List (String × String))
    (ch : List xmlNode) (ordered : Bool) (depth : Nat) (md : String) :
    traverseList (.mk t n c p ch) ordered depth md
      = (traverseListItems ch ordered depth 1 md).2 := by
  rw [traverseList]

theorem traverseListItems_nil (ordered : Bool) (depth index : Nat) (md : String) :
    traverseListItems [] ordered depth index md = (index, md) := by
  rw [traverseListItems]

theorem traverseListItems_cons (item : xmlNode) (next : List xmlNode) (ordered : Bool)
    (depth index : Nat) (md : String) :
    traverseListItems (item :: next) ordered depth index md
      = traverseListItems next ordered depth (traverseListItem item ordered depth index md).1
          (traverseListItem item ordered depth index md).2 := by
  rw [traverseListItems]

theorem traverseListChildren_nil (depth : Nat) (md : String) :
    traverseListChildren [] depth md = md := by
  rw [traverseListChildren]

theorem traverseListChildren_cons (child : xmlNode) (next : List xmlNode) (depth : Nat)
    (md : String) :
    traverseListChildren (child :: next) depth md
      = traverseListChildren next depth
          (if child.type = .XML_ELEMENT_NODE ∧ (child.name = "ul" ∨ child.name = "ol") then
            traverseList child (decide (child.name = "ol")) (depth + 1) md
          else md) := by
  rw [traverseListChildren]
  by_cases h1 : child.type = .XML_ELEMENT_NODE <;>
    by_cases h2 : (child.name = "ul" ∨ child.name = "ol") <;> simp [h1, h2]

theorem traverseListItem_li (t : xmlElementType) (n c : String) (p : List (String × String))
    (ch : List xmlNode) (ordered : Bool) (depth index : Nat) (md : String)
    (h : t = .XML_ELEMENT_NODE ∧ n = "li") :
    traverseListItem (.mk t n c p ch) ordered depth index md
      = (if ordered = true then index + 1 else index,
         traverseListChildren ch depth
           (md ++ (stringOf (depth * 2) ' ' ++ (if ordered = true then toString index ++ ". " else "- ")
              ++ getNodeContent (.mk t n c p ch) ++ "\n"))) := by
  rw [traverseListItem]
  cases ordered <;> simp [h]

theorem traverseListItem_not_li (t : xmlElementType) (n c : String)
    (p : List (String × String)) (ch : List xmlNode) (ordered : Bool) (depth index : Nat)
    (md : String) (h : ¬ (t = .XML_ELEMENT_NODE ∧ n = "li")) :
    traverseListItem (.mk t n c p ch) ordered depth index md = (index, md) := by
  rw [traverseListItem]
  simp only [h, if_false]

/-- Every function of the list renderer leaves what `markdown` held in place and
appends what it would write to an empty buffer; the counter does not depend on the
buffer. -/
theorem traverseList_append_all :
    (∀ item : xmlNode,
      (∀ o d md, traverseList item o d md = md ++ traverseList item o d "") ∧
      (∀ o d i md, traverseListItem item o d i md
        = ((traverseListItem item o d i "").1, md ++ (traverseListItem item o d i "").2))) ∧
    (∀ l : List xmlNode,
      (∀ o d i md, traverseListItems l o d i md
        = ((traverseListItems l o d i "").1, md ++ (traverseListItems l o d i "").2)) ∧
      (∀ d md, traverseListChildren l d md = md ++ traverseListChildren l d "")) := by
  apply xmlNode.induction
  · intro t n c p ch ih
    obtain ⟨ihI, ihC⟩ := ih
    refine ⟨?_, ?_⟩
    · intro o d md
      rw [traverseList_eq, traverseList_eq, ihI o d 1 md]
    · intro o d i md
      by_cases h : t = .XML_ELEMENT_NODE ∧ n = "li"
      · rw [traverseListItem_li _ _ _ _ _ _ _ _ _ h, traverseListItem_li _ _ _ _ _ _ _ _ _ h]
        simp only
        rw [ihC d (md ++ _), ihC d ("" ++ _)]
        simp [String.append_assoc]
      · rw [traverseListItem_not_li _ _ _ _ _ _ _ _ _ h, traverseListItem_not_li _ _ _ _ _ _ _ _ _ h]
        simp
  · exact ⟨fun o d i md => by simp [traverseListItems_nil],
      fun d md => by simp [traverseListChildren_nil]⟩
  · intro x xs ihx ihxs
    obtain ⟨ihL, ihI⟩ := ihx
    obtain ⟨ihIs, ihCs⟩ := ihxs
    refine ⟨?_, ?_⟩
    · intro o d i md
      rw [traverseListItems_cons, traverseListItems_cons, ihI o d i md]
      simp only
      rw [ihIs o d _ (md ++ _), ihIs o d _ ((traverseListItem x o d i "").2)]
      simp [String.append_assoc]
    · intro d md
      rw [traverseListChildren_cons, traverseListChildren_cons]
      by_cases h : x.type = .XML_ELEMENT_NODE ∧ (x.name = "ul" ∨ x.name = "ol")
      · simp only [h, and_self, if_true]
        rw [ihCs d (traverseList x _ _ md), ihCs d (traverseList x _ _ ""), ihL _ _ md]
        simp [String.append_assoc]
      · simp only [h, if_false]
        rw [ihCs d md]

theorem traverseList_append (item : xmlNode) (o : Bool) (d : Nat) (md : String) :
    traverseList item o d md = md ++ traverseList item o d "" :=
  (traverseList_append_all.1 item).1 o d md

theorem traverseListItems_append (l : List xmlNode) (o : Bool) (d i : Nat) (md : String) :
    traverseListItems l o d i md
      = ((traverseListItems l o d i "").1, md ++ (traverseListItems l o d i "").2) :=
  (traverseList_append_all.2 l).1 o d i md

theorem traverseListChildren_append (l : List xmlNode) (d : Nat) (md : String) :
    traverseListChildren l d md = md ++ traverseListChildren l d "" :=
  (traverseList_append_all.2 l).2 d md
/-! ## Tables: what the emission loops write -/

theorem emitCells_eq (row : List String) (cw : List Nat) (md : String) :
    emitCells row cw md
      = md ++ concat (row.enum.map (fun p => padString p.2 (cw.getD p.1 0) ++ " | ")) := by
  unfold emitCells
  rw [foldl_range_getD row "" (fun md i c => md ++ (padString c (cw.getD i 0) ++ " | ")) md]
  exact foldl_append_eq (fun p : Nat × String => padString p.2 (cw.getD p.1 0) ++ " | ") _ md

/-- The vector `separator` holds, for every column, as many dashes as the column is wide. -/
theorem tableSeparator_eq (cw : List Nat) :
    tableSeparator cw = cw.map (fun w => stringOf w '-') := by
  unfold tableSeparator
  have key : ∀ n, n ≤ cw.length →
      (List.range n).foldl
          (fun separator i => separator.set i (stringOf (cw.getD i 0) '-'))
          (List.replicate cw.length "")
        = (cw.take n).map (fun w => stringOf w '-') ++ List.replicate (cw.length - n) "" := by
    intro n
    induction n with
    | zero => simp
    | succ n ih =>
      intro hn
      rw [List.range_succ, List.foldl_append, ih (by omega)]
      apply List.ext_getElem?
      intro i
      simp only [List.foldl_cons, List.foldl_nil, List.getElem?_set, List.length_append,
        List.length_map, List.length_take, List.length_replicate, List.getElem?_append,
        List.getElem?_map, List.getElem?_take, List.getElem?_replicate]
      have h1 : min n cw.length = n := by omega
      have h2 : min (n + 1) cw.length = n + 1 := by omega
      simp only [h1, h2]
      by_cases hi : n = i
      · subst hi
        have : n < cw.length := by omega
        simp [this, List.getD_eq_getElem?_getD, List.getElem?_eq_getElem this]
      · by_cases hlt : i < n
        · have : i < n + 1 := by omega
          simp [hi, hlt, this]
        · have h3 : ¬ i < n + 1 := by omega
          simp only [hi, hlt, h3, if_false]
          by_cases h4 : i - n < cw.length - n
          · have : i - (n + 1) < cw.length - (n + 1) := by omega
            simp [h4, this]
          · have : ¬ i - (n + 1) < cw.length - (n + 1) := by omega
            simp [h4, this]
  rw [key cw.length (le_refl _)]
  simp
/-! ## Column widths -/

theorem resize_length (v : List Nat) (n value : Nat) : (resize v n value).length = n := by
  unfold resize
  simp
  omega

theorem resize_getD (v : List Nat) (n : Nat) (h : v.length ≤ n) (i : Nat) :
    (resize v n 0).getD i 0 = v.getD i 0 := by
  unfold resize
  rw [List.take_of_length_le h]
  simp only [List.getD_eq_getElem?_getD, List.getElem?_append, List.getElem?_replicate]
  by_cases hi : i < v.length
  · simp [hi]
  · have : v[i]? = none := List.getElem?_eq_none (by omega)
    simp only [hi, if_false, this]
    split <;> simp

/-- The index loop of `updateColumnWidths`, after `n` iterations. -/
theorem updateLoop_spec (row : List String) (cw : List Nat) (n : Nat) (hn : n ≤ cw.length) :
    ((List.range n).foldl
        (fun columnWidths i =>
          columnWidths.set i (max (columnWidths.getD i 0) (row.getD i "").length)) cw).length
      = cw.length ∧
    ∀ i, ((List.range n).foldl
        (fun columnWidths i =>
          columnWidths.set i (max (columnWidths.getD i 0) (row.getD i "").length)) cw)[i]?
      = if i < n then some (max (cw.getD i 0) (row.getD i "").length) else cw[i]? := by
  induction n with
  | zero => simp
  | succ n ih =>
    obtain ⟨ihl, ihg⟩ := ih (by omega)
    rw [List.range_succ, List.foldl_append]
    simp only [List.foldl_cons, List.foldl_nil, List.length_set]
    refine ⟨ihl, ?_⟩
    intro i
    rw [List.getElem?_set, ihl]
    by_cases hi : n = i
    · subst hi
      have h1 : n < cw.length := by omega
      simp only [if_true, h1, Nat.lt_succ_self]
      rw [List.getD_eq_getElem?_getD, ihg n]
      simp [List.getD_eq_getElem?_getD]
    · simp only [hi, if_false]
      rw [ihg i]
      by_cases hlt : i < n
      · have : i < n + 1 := by omega
        simp [hlt, this]
      · have : ¬ i < n + 1 := by omega
        simp [hlt, this]

theorem updateColumnWidths_length (row : List String) (cw : List Nat) :
    (updateColumnWidths row cw).length = max row.length cw.length := by
  unfold updateColumnWidths
  by_cases h : row.length > cw.length
  · simp only [h, if_true]
    rw [(updateLoop_spec row _ row.length (by rw [resize_length])).1, resize_length]
    omega
  · simp only [h, if_false]
    rw [(updateLoop_spec row cw row.length (by omega)).1]
    omega

/-- After `updateColumnWidths`, the width of column `i` is the larger of the old width and
the length of cell `i` of the row (a missing cell or column counts as 0). -/
theorem updateColumnWidths_getD (row : List String) (cw : List Nat) (i : Nat) :
    (updateColumnWidths row cw).getD i 0 = max (cw.getD i 0) (row.getD i "").length := by
  have hrow : ¬ i < row.length → row.getD i "" = "" := by
    intro hi
    rw [List.getD_eq_getElem?_getD, List.getElem?_eq_none (by omega)]; rfl
  unfold updateColumnWidths
  by_cases h : row.length > cw.length
  · simp only [h, if_true]
    rw [List.getD_eq_getElem?_getD,
      (updateLoop_spec row _ row.length (by rw [resize_length])).2 i,
      resize_getD cw row.length (by omega) i]
    by_cases hi : i < row.length
    · simp only [hi, if_true, Option.getD_some]
    · simp only [hi, if_false]
      rw [← List.getD_eq_getElem?_getD, resize_getD cw row.length (by omega) i, hrow hi]
      simp
  · simp only [h, if_false]
    rw [List.getD_eq_getElem?_getD, (updateLoop_spec row cw row.length (by omega)).2 i]
    by_cases hi : i < row.length
    · simp only [hi, if_true, Option.getD_some]
    · simp only [hi, if_false]
      rw [← List.getD_eq_getElem?_getD, hrow hi]
      simp
/-! ## Row collection -/

theorem foldr_max_append (l : List Nat) (x : Nat) :
    (l ++ [x]).foldr max 0 = max (l.foldr max 0) x := by
  induction l with
  | nil => simp
  | cons a l ih => simp only [List.cons_append, List.foldr_cons, ih]; omega

theorem columnCount_append (rows : List (List String)) (r : List String) :
    columnCount (rows ++ [r]) = max (columnCount rows) r.length := by
  unfold columnCount
  rw [List.map_append, List.map_singleton, foldr_max_append]

theorem columnWidth_append (rows : List (List String)) (r : List String) (i : Nat) :
    columnWidth (rows ++ [r]) i = max (columnWidth rows i) (r.getD i "").length := by
  unfold columnWidth
  rw [List.filterMap_append, List.map_append]
  by_cases h : i < r.length
  · have : r[i]? = some r[i] := List.getElem?_eq_getElem h
    simp only [List.filterMap_cons, List.filterMap_nil, this, List.map_singleton,
      foldr_max_append, List.getD_eq_getElem?_getD, Option.getD_some]
  · have : r[i]? = none := List.getElem?_eq_none (by omega)
    simp [List.filterMap_cons, this, List.getD_eq_getElem?_getD]

theorem collectInv_init : CollectInv ([], []) := by
  refine ⟨rfl, ?_, ?_⟩
  · intro i; simp [columnWidth]
  · intro r hr; simp at hr

theorem collectRow_inv (tr : xmlNode) (st : List (List String) × List Nat)
    (h : CollectInv st) : CollectInv (collectRow tr st) := by
  unfold collectRow
  by_cases he : extractRow tr = []
  · simpa [he] using h
  · obtain ⟨h1, h2, h3⟩ := h
    simp only [ne_eq, he, not_false_eq_true, if_true]
    refine ⟨?_, ?_, ?_⟩
    · simp only [updateColumnWidths_length, columnCount_append, h1]; omega
    · intro i
      simp only [updateColumnWidths_getD, columnWidth_append, h2]
    · intro r hr
      rcases List.mem_append.1 hr with hr | hr
      · exact h3 r hr
      · simp at hr; subst hr; exact he

theorem foldl_inv {σ α : Type} (Inv : σ → Prop) (f : σ → α → σ)
    (h : ∀ s a, Inv s → Inv (f s a)) (l : List α) (s : σ) (hs : Inv s) :
    Inv (l.foldl f s) := by
  induction l generalizing s with
  | nil => exact hs
  | cons a l ih => exact ih _ (h s a hs)

theorem collectRows_inv (children : List xmlNode) (st : List (List String) × List Nat)
    (h : CollectInv st) : CollectInv (collectRows children st) := by
  unfold collectRows
  apply foldl_inv CollectInv _ _ _ _ h
  intro s child hs
  by_cases h1 : child.type = .XML_ELEMENT_NODE
  · simp only [h1, if_true]
    by_cases h2 : child.name = "thead" ∨ child.name = "tbody" ∨ child.name = "tfoot"
    · simp only [h2, if_true]
      apply foldl_inv CollectInv _ _ _ _ hs
      intro s2 tr hs2
      by_cases h3 : tr.type = .XML_ELEMENT_NODE ∧ tr.name = "tr"
      · simp only [h3, and_self, if_true]; exact collectRow_inv tr s2 hs2
      · simp only [h3, if_false]; exact hs2
    · simp only [h2, if_false]
      by_cases h3 : child.name = "tr"
      · simp only [h3, if_true]; exact collectRow_inv child s hs
      · simp only [h3, if_false]; exact hs
  · simp only [h1, if_false]; exact hs
/-! ## What `traverseTable` writes -/

theorem range'_map_getD_tail {α : Type} (x : α) (xs : List α) (d : α) :
    (List.range' 1 ((x :: xs).length - 1)).map (fun r => (x :: xs).getD r d) = xs := by
  apply List.ext_getElem
  · simp
  · intro n h1 h2
    simp [List.getElem_range', List.getD_eq_getElem?_getD, Nat.add_comm 1 n,
      List.getElem?_eq_getElem h2]

/-- The text `traverseTable` appends when at least one row was collected: the header
line, the separator line, and one line for every other row. -/
theorem traverseTable_eq (tableNode : xmlNode) (md : String) (header : List String)
    (rest : List (List String))
    (h : (collectRows tableNode.children ([], [])).1 = header :: rest) :
    traverseTable tableNode md
      = md ++ ("| " ++ concat (header.enum.map (fun p =>
            padString p.2 ((collectRows tableNode.children ([], [])).2.getD p.1 0) ++ " | "))
          ++ "\n")
        ++ ("| " ++ concat ((tableSeparator (collectRows tableNode.children ([], [])).2).map
            (fun sep => sep ++ " | ")) ++ "\n")
        ++ concat (rest.map (fun row => "| " ++ concat (row.enum.map (fun p =>
            padString p.2 ((collectRows tableNode.children ([], [])).2.getD p.1 0) ++ " | "))
          ++ "\n")) := by
  unfold traverseTable
  simp only [h, List.cons_ne_nil, if_false]
  have hbody : ∀ (cw : List Nat) (acc : String) (l : List Nat),
      l.foldl (fun markdown r =>
          emitCells ((header :: rest).getD r []) cw (markdown ++ "| ") ++ "\n") acc
        = acc ++ concat (l.map (fun r => "| " ++ concat (((header :: rest).getD r []).enum.map
            (fun p => padString p.2 (cw.getD p.1 0) ++ " | ")) ++ "\n")) := by
    intro cw acc l
    rw [← foldl_append_eq]
    congr 1
    funext markdown r
    rw [emitCells_eq]
    simp only [String.append_assoc]
  rw [hbody, foldl_append_eq, emitCells_eq]
  have hmap : ∀ (F : List String → String),
      (List.range' 1 ((header :: rest).length - 1)).map (fun r => F ((header :: rest).getD r []))
        = rest.map F := by
    intro F
    have := congrArg (List.map F) (range'_map_getD_tail header rest [])
    simpa [List.map_map, Function.comp] using this
  rw [hmap (fun row => "| " ++ concat (row.enum.map (fun p =>
    padString p.2 ((collectRows tableNode.children ([], [])).2.getD p.1 0) ++ " | ")) ++ "\n")]
  simp only [List.getD_cons_zero, String.append_assoc]

theorem traverseTable_empty (tableNode : xmlNode) (md : String)
    (h : (collectRows tableNode.children ([], [])).1 = []) :
    traverseTable tableNode md = md := by
  unfold traverseTable
  simp [h]

/-- The table renderer leaves what `markdown` held in place. -/
theorem traverseTable_append (tableNode : xmlNode) (md : String) :
    traverseTable tableNode md = md ++ traverseTable tableNode "" := by
  cases h : (collectRows tableNode.children ([], [])).1 with
  | nil => rw [traverseTable_empty _ _ h, traverseTable_empty _ _ h]; simp
  | cons header rest =>
    rw [traverseTable_eq _ md _ _ h, traverseTable_eq _ "" _ _ h]
    simp only [String.append_assoc, String.empty_append]
/-! ## Dispatch and traversal only append to `markdown` -/

theorem length_eq_zero_iff (s : String) : s.length = 0 ↔ s = "" := by
  constructor
  · intro h
    apply String.ext
    exact List.length_eq_zero.1 h
  · intro h; subst h; rfl

theorem append_ne_empty_right (s t : String) (h : t ≠ "") : s ++ t ≠ "" := by
  intro he
  apply h
  have h0 : s.length + t.length = 0 := by rw [← String.length_append, he]; rfl
  exact (length_eq_zero_iff t).1 (by omega)

theorem append_ne_empty_left (s t : String) (h : s ≠ "") : s ++ t ≠ "" := by
  intro he
  apply h
  have h0 : s.length + t.length = 0 := by rw [← String.length_append, he]; rfl
  exact (length_eq_zero_iff s).1 (by omega)

/-- Apart from the list and table branches, `handleElement` leaves `markdown` as it is;
those two append to it. The fragment does not depend on `markdown`. -/
theorem handleElement_append (current : xmlNode) (tagName md : String) :
    handleElement current tagName md
      = ((handleElement current tagName "").1, md ++ (handleElement current tagName "").2) := by
  unfold handleElement
  by_cases h0 : find tagName 'h' = 0 ∧ tagName.length = 2 ∧ isdigit (tagName.data.getD 1 ' ') = true
  · simp only [h0, and_self, if_true]; split_ifs <;> simp only [String.append_empty]
  simp only [h0, if_false]
  by_cases h1 : tagName = "p"
  · simp only [h1, if_true]; split_ifs <;> simp only [String.append_empty]
  simp only [h1, if_false]
  by_cases h2 : tagName = "strong" ∨ tagName = "b"
  · simp only [h2, if_true]; split_ifs <;> simp only [String.append_empty]
  simp only [h2, if_false]
  by_cases h3 : tagName = "em" ∨ tagName = "i"
  · simp only [h3, if_true]; split_ifs <;> simp only [String.append_empty]
  simp only [h3, if_false]
  by_cases h4 : tagName = "a"
  · simp only [h4, if_true]; split_ifs <;> simp only [String.append_empty]
  simp only [h4, if_false]
  by_cases h5 : tagName = "img"
  · simp only [h5, if_true]; split_ifs <;> simp only [String.append_empty]
  simp only [h5, if_false]
  by_cases h6 : tagName = "ul" ∨ tagName = "ol"
  · simp only [h6, if_true]
    rw [traverseList_append current _ 0 md]
    split_ifs <;> rfl
  simp only [h6, if_false]
  by_cases h7 : tagName = "pre"
  · simp only [h7, if_true]; split_ifs <;> simp only [String.append_empty]
  simp only [h7, if_false]
  by_cases h8 : tagName = "code"
  · simp only [h8, if_true]; split_ifs <;> simp only [String.append_empty]
  simp only [h8, if_false]
  by_cases h9 : tagName = "table"
  · simp only [h9, if_true]
    rw [traverseTable_append current md]
    split_ifs <;> rfl
  simp only [h9, if_false]
  split_ifs <;> simp only [String.append_empty]

theorem traverse_nil (md : String) : traverse [] md = md := by
  rw [traverse]

theorem traverse_cons (current : xmlNode) (next : List xmlNode) (md : String) :
    traverse (current :: next) md = traverse next (traverseNode current md) := by
  rw [traverse]

theorem traverseNode_empty_name (c : String) (p : List (String × String))
    (ch : List xmlNode) (md : String) :
    traverseNode (.mk .XML_ELEMENT_NODE "" c p ch) md = md := by
  rw [traverseNode]
  simp

theorem traverseNode_element (n c : String) (p : List (String × String))
    (ch : List xmlNode) (md : String) (hn : n ≠ "") :
    traverseNode (.mk .XML_ELEMENT_NODE n c p ch) md
      = match handleElement (.mk .XML_ELEMENT_NODE n c p ch) n md with
        | (some tagContent, markdown) => markdown ++ tagContent
        | (none, markdown) => traverse ch markdown := by
  rw [traverseNode]
  simp only [if_true, hn, if_false]

theorem traverseNode_text (n c : String) (p : List (String × String))
    (ch : List xmlNode) (md : String) :
    traverseNode (.mk .XML_TEXT_NODE n c p ch) md = md ++ eraseTrailing c := by
  rw [traverseNode]
  simp

theorem traverseNode_other (t : xmlElementType) (n c : String) (p : List (String × String))
    (ch : List xmlNode) (md : String) (h1 : t ≠ .XML_ELEMENT_NODE) (h2 : t ≠ .XML_TEXT_NODE) :
    traverseNode (.mk t n c p ch) md = traverse ch md := by
  rw [traverseNode]
  simp only [h1, h2, if_false]

/-- Every step of the traversal leaves what `markdown` held in place and appends what it
would write to an empty buffer. -/
theorem traverse_append_all :
    (∀ n : xmlNode, ∀ md, traverseNode n md = md ++ traverseNode n "") ∧
    (∀ l : List xmlNode, ∀ md, traverse l md = md ++ traverse l "") := by
  apply xmlNode.induction
  · intro t n c p ch ih md
    cases t with
    | XML_ELEMENT_NODE =>
      by_cases hn : n = ""
      · subst hn
        rw [traverseNode_empty_name, traverseNode_empty_name]; simp
      · rw [traverseNode_element _ _ _ _ _ hn, traverseNode_element _ _ _ _ _ hn,
          handleElement_append _ _ md]
        cases h1 : (handleElement (.mk .XML_ELEMENT_NODE n c p ch) n "").1 with
        | none =>
          have : handleElement (.mk .XML_ELEMENT_NODE n c p ch) n ""
              = (none, (handleElement (.mk .XML_ELEMENT_NODE n c p ch) n "").2) := by
            rw [← h1]
          rw [this]
          simp only
          rw [ih (md ++ _), ih (handleElement _ _ _).2]
          simp only [String.append_assoc]
        | some tc =>
          have : handleElement (.mk .XML_ELEMENT_NODE n c p ch) n ""
              = (some tc, (handleElement (.mk .XML_ELEMENT_NODE n c p ch) n "").2) := by
            rw [← h1]
          rw [this]
          simp only [String.append_assoc]
    | XML_TEXT_NODE =>
      rw [traverseNode_text, traverseNode_text]; simp
    | XML_OTHER_NODE =>
      rw [traverseNode_other _ _ _ _ _ _ (by decide) (by decide),
        traverseNode_other _ _ _ _ _ _ (by decide) (by decide)]
      exact ih md
  · intro md
    simp [traverse_nil]
  · intro x xs ihx ihxs md
    rw [traverse_cons, traverse_cons, ihxs (traverseNode x md), ihxs (traverseNode x ""),
      ihx md]
    simp only [String.append_assoc]

theorem traverse_append_buffer (l : List xmlNode) (md : String) :
    traverse l md = md ++ traverse l "" :=
  traverse_append_all.2 l md

theorem traverseNode_append_buffer (n : xmlNode) (md : String) :
    traverseNode n md = md ++ traverseNode n "" :=
  traverse_append_all.1 n md

theorem traverse_concat (xs ys : List xmlNode) (md : String) :
    traverse (xs ++ ys) md = traverse ys (traverse xs md) := by
  induction xs generalizing md with
  | nil => simp [traverse_nil]
  | cons x xs ih => simp only [List.cons_append, traverse_cons, ih]
/-! ## Dispatch on the tag name -/

theorem mk_cons_ne_empty (a : Char) (l : List Char) : String.mk (a :: l) ≠ "" := by
  intro h
  have := congrArg String.data h
  exact List.cons_ne_nil a l this

theorem handleElement_heading (current : xmlNode) (d : Char) (md : String)
    (hd : '0'.toNat ≤ d.toNat ∧ d.toNat ≤ '9'.toNat) :
    handleElement current (String.mk ['h', d]) md
      = (some (stringOf (d.toNat - '0'.toNat) '#' ++ " " ++ getNodeContent current ++ "\n\n"),
          md) := by
  have h0 : find (String.mk ['h', d]) 'h' = 0 ∧ (String.mk ['h', d]).length = 2 ∧
      isdigit ((String.mk ['h', d]).data.getD 1 ' ') = true := by
    refine ⟨by simp [find, findFrom], rfl, ?_⟩
    have hd2 : 48 ≤ d.toNat ∧ d.toNat ≤ 57 := hd
    simpa [isdigit] using hd2
  have hne : stringOf (d.toNat - '0'.toNat) '#' ++ " " ++ getNodeContent current ++ "\n\n" ≠ "" :=
    append_ne_empty_right _ _ (by decide)
  unfold handleElement
  simp only [h0, and_self, if_true]
  simp only [List.getD_cons_succ, List.getD_cons_zero]
  rw [if_pos hne]

theorem digit_cases (d : Char) (hd : isdigit d = true) :
    d = '0' ∨ d = '1' ∨ d = '2' ∨ d = '3' ∨ d = '4' ∨ d = '5' ∨ d = '6' ∨ d = '7' ∨
      d = '8' ∨ d = '9' := by
  have h : 48 ≤ d.toNat ∧ d.toNat ≤ 57 := by simpa [isdigit] using hd
  obtain ⟨h1, h2⟩ := h
  have hc : Char.ofNat d.toNat = d := Char.ofNat_toNat d
  generalize d.toNat = k at h1 h2 hc
  subst hc
  interval_cases k <;> decide

/-- The heading test of `handleElement` holds of the ten names h0 to h9 only. -/
theorem heading_test_cases (tagName : String)
    (h : find tagName 'h' = 0 ∧ tagName.length = 2 ∧ isdigit (tagName.data.getD 1 ' ') = true) :
    tagName ∈ ["h0", "h1", "h2", "h3", "h4", "h5", "h6", "h7", "h8", "h9"] := by
  obtain ⟨hf, hl, hd⟩ := h
  obtain ⟨data⟩ := tagName
  match data, hl with
  | [a, b], _ =>
    have ha : a = 'h' := by
      by_contra hne
      have : find (String.mk [a, b]) 'h' ≠ 0 := by
        simp only [find, findFrom, hne, if_false]
        split <;> simp [npos]
      exact this hf
    subst ha
    have hb := digit_cases b (by simpa using hd)
    rcases hb with h | h | h | h | h | h | h | h | h | h <;> subst h <;> decide

/-- A tag name that passes none of the tests of `handleElement` gets no fragment, and
`markdown` is left as it is. -/
theorem handleElement_none (current : xmlNode) (tagName md : String)
    (h : tagName ∉ ["h0", "h1", "h2", "h3", "h4", "h5", "h6", "h7", "h8", "h9", "p", "strong",
      "b", "em", "i", "a", "img", "ul", "ol", "pre", "code", "table"]) :
    handleElement current tagName md = (none, md) := by
  have h0 : ¬ (find tagName 'h' = 0 ∧ tagName.length = 2 ∧
      isdigit (tagName.data.getD 1 ' ') = true) := by
    intro hc
    apply h
    have := heading_test_cases tagName hc
    simp only [List.mem_cons, List.mem_singleton] at this ⊢
    tauto
  simp only [List.mem_cons, List.mem_singleton, not_or, List.mem_nil_iff, not_false_eq_true,
    and_true] at h
  obtain ⟨-, -, -, -, -, -, -, -, -, -, hp, hstrong, hb, hem, hi, ha, himg, hul, hol, hpre,
    hcode, htable⟩ := h
  unfold handleElement
  simp only [h0, hp, hstrong, hb, hem, hi, ha, himg, hul, hol, hpre, hcode, htable, or_self,
    if_false, ne_eq, not_true_eq_false]
/-! ## Trailing whitespace -/

/-- With `size() < 2 ^ 64`, the erase statement keeps what is left of the content after
dropping, from the end, the characters of `" \n\r\t"`. -/
theorem eraseTrailing_data (t : String) (ht : t.length < 2 ^ 64) :
    (eraseTrailing t).data
      = (t.data.reverse.dropWhile (fun c => decide (c ∈ " \n\r\t".data))).reverse := by
  unfold eraseTrailing find_last_not_of erase
  have hsplit := List.takeWhile_append_dropWhile (fun c => decide (c ∈ " \n\r\t".data))
    t.data.reverse
  have hlen := congrArg List.length hsplit
  cases hdw : t.data.reverse.dropWhile (fun c => decide (c ∈ " \n\r\t".data)) with
  | nil =>
    have : (npos + 1) % 2 ^ 64 = 0 := by decide
    simp only [this, List.take_zero, List.reverse_nil]
  | cons x rest =>
    rw [hdw] at hsplit hlen
    simp only [List.length_append, List.length_cons, List.length_reverse] at hlen
    have hle : rest.length + 1 < 2 ^ 64 := by
      have : t.data.length < 2 ^ 64 := ht
      omega
    simp only [Nat.mod_eq_of_lt hle]
    have hd : t.data = (x :: rest).reverse
        ++ (t.data.reverse.takeWhile (fun c => decide (c ∈ " \n\r\t".data))).reverse := by
      rw [← List.reverse_append, hsplit, List.reverse_reverse]
    have hl : rest.length + 1 = ((x :: rest).reverse).length := by simp
    rw [hd, hl, List.take_left]

theorem eraseTrailing_split (t : String) (ht : t.length < 2 ^ 64) :
    ∃ w : String, t = eraseTrailing t ++ w ∧
      ∀ c ∈ w.data, c = ' ' ∨ c = '\t' ∨ c = '\n' ∨ c = '\r' := by
  refine ⟨String.mk (t.data.reverse.takeWhile (fun c => decide (c ∈ " \n\r\t".data))).reverse,
    ?_, ?_⟩
  · apply String.ext
    rw [String.data_append, eraseTrailing_data t ht, ← List.reverse_append,
      List.takeWhile_append_dropWhile, List.reverse_reverse]
  · intro c hc
    simp only [List.mem_reverse] at hc
    have := List.mem_takeWhile_imp hc
    simp only [decide_eq_true_eq] at this
    have hmem : c ∈ [' ', '\n', '\r', '\t'] := this
    simp only [List.mem_cons, List.mem_singleton, List.mem_nil_iff, or_false] at hmem
    tauto

theorem eraseTrailing_last (t : String) (ht : t.length < 2 ^ 64) :
    eraseTrailing t = "" ∨
      ∃ c, (eraseTrailing t).data.getLast? = some c ∧
        c ≠ ' ' ∧ c ≠ '\t' ∧ c ≠ '\n' ∧ c ≠ '\r' := by
  cases hdw : t.data.reverse.dropWhile (fun c => decide (c ∈ " \n\r\t".data)) with
  | nil =>
    left
    apply String.ext
    rw [eraseTrailing_data t ht, hdw]
    rfl
  | cons x rest =>
    right
    refine ⟨x, ?_, ?_⟩
    · rw [eraseTrailing_data t ht, hdw]
      simp
    · have hne : t.data.reverse.dropWhile (fun c => decide (c ∈ " \n\r\t".data)) ≠ [] := by
        rw [hdw]; simp
      have := List.head_dropWhile_not (fun c => decide (c ∈ " \n\r\t".data)) t.data.reverse hne
      simp only [hdw, List.head_cons, decide_eq_false_iff_not] at this
      have hmem : x ∉ [' ', '\n', '\r', '\t'] := this
      simp only [List.mem_cons, List.mem_singleton, List.mem_nil_iff, or_false, not_or] at hmem
      tauto

theorem eraseTrailing_length_le (t : String) (ht : t.length < 2 ^ 64) :
    (eraseTrailing t).length ≤ t.length := by
  show (eraseTrailing t).data.length ≤ t.data.length
  rw [eraseTrailing_data t ht, List.length_reverse]
  calc (t.data.reverse.dropWhile _).length ≤ t.data.reverse.length :=
        (List.dropWhile_sublist _).length_le
    _ = t.data.length := List.length_reverse _

theorem eraseTrailing_idem (t : String) (ht : t.length < 2 ^ 64) :
    eraseTrailing (eraseTrailing t) = eraseTrailing t := by
  have hlt : (eraseTrailing t).length < 2 ^ 64 :=
    lt_of_le_of_lt (eraseTrailing_length_le t ht) ht
  apply String.ext
  rw [eraseTrailing_data _ hlt, eraseTrailing_data t ht, List.reverse_reverse]
  congr 1
  cases hdw : t.data.reverse.dropWhile (fun c => decide (c ∈ " \n\r\t".data)) with
  | nil => rfl
  | cons x rest =>
    have hne : t.data.reverse.dropWhile (fun c => decide (c ∈ " \n\r\t".data)) ≠ [] := by
      rw [hdw]; simp
    have := List.head_dropWhile_not (fun c => decide (c ∈ " \n\r\t".data)) t.data.reverse hne
    simp only [hdw, List.head_cons] at this
    rw [List.dropWhile_cons_of_neg (by simpa using this)]

theorem traverse_text (n t : String) (p : List (String × String)) (ch : List xmlNode)
    (md : String) :
    traverse [xmlNode.mk .XML_TEXT_NODE n t p ch] md = md ++ eraseTrailing t := by
  rw [traverse_cons, traverse_nil, traverseNode_text]

theorem getNodeContent_text (ty : xmlElementType) (nm c : String)
    (pr : List (String × String)) (n t : String) (p : List (String × String))
    (ch : List xmlNode) :
    getNodeContent (xmlNode.mk ty nm c pr [xmlNode.mk .XML_TEXT_NODE n t p ch])
      = eraseTrailing t := by
  rw [getNodeContent, getNodeContentLoop, getNodeContentLoop]
  simp [xmlNode.type, xmlNode.content]
/-! ## The line of a list item -/

theorem traverseListItems_concat (pre post : List xmlNode) (o : Bool) (d i : Nat)
    (md : String) :
    traverseListItems (pre ++ post) o d i md
      = traverseListItems post o d (traverseListItems pre o d i md).1
          (traverseListItems pre o d i md).2 := by
  induction pre generalizing i md with
  | nil => simp [traverseListItems_nil]
  | cons x xs ih => simp only [List.cons_append, traverseListItems_cons, ih]

theorem traverseListItem_index (item : xmlNode) (o : Bool) (d i : Nat) (md : String) :
    (traverseListItem item o d i md).1
      = if item.type = .XML_ELEMENT_NODE ∧ item.name = "li" ∧ o = true then i + 1 else i := by
  obtain ⟨t, n, c, p, ch⟩ := item
  by_cases h : t = .XML_ELEMENT_NODE ∧ n = "li"
  · rw [traverseListItem_li _ _ _ _ _ _ _ _ _ h]
    cases o <;> simp [xmlNode.type, xmlNode.name, h]
  · rw [traverseListItem_not_li _ _ _ _ _ _ _ _ _ h]
    have : ¬ (t = .XML_ELEMENT_NODE ∧ n = "li" ∧ o = true) := fun hc => h ⟨hc.1, hc.2.1⟩
    simp [xmlNode.type, xmlNode.name, this]

/-- In an ordered list the counter advances by one for every `li` element and by nothing
else. -/
theorem traverseListItems_index_ordered (l : List xmlNode) (d i : Nat) (md : String) :
    (traverseListItems l true d i md).1 = i + countLi l := by
  induction l generalizing i md with
  | nil => simp [traverseListItems_nil, countLi]
  | cons x xs ih =>
    rw [traverseListItems_cons, ih, traverseListItem_index]
    by_cases h : x.type = .XML_ELEMENT_NODE ∧ x.name = "li"
    · simp [countLi, List.filter_cons, h]
      omega
    · simp [countLi, List.filter_cons, h]

/-- In an unordered list the counter stays as it is. -/
theorem traverseListItems_index_unordered (l : List xmlNode) (d i : Nat) (md : String) :
    (traverseListItems l false d i md).1 = i := by
  induction l generalizing i md with
  | nil => simp [traverseListItems_nil]
  | cons x xs ih =>
    rw [traverseListItems_cons, ih, traverseListItem_index]
    simp

/-- The output of a list around one of its items: what the children before it write, the
line of the item, the nested lists of the item, what the children after it write. -/
theorem traverseList_split (t : xmlElementType) (n c : String) (p : List (String × String))
    (pre post : List xmlNode) (ic : String) (ip : List (String × String))
    (ich : List xmlNode) (o : Bool) (d : Nat) (md : String) :
    traverseList (.mk t n c p (pre ++ xmlNode.mk .XML_ELEMENT_NODE "li" ic ip ich :: post)) o d md
      = md ++ (traverseListItems pre o d 1 "").2
        ++ (stringOf (d * 2) ' '
            ++ (if o = true then toString (traverseListItems pre o d 1 "").1 ++ ". " else "- ")
            ++ getNodeContent (xmlNode.mk .XML_ELEMENT_NODE "li" ic ip ich) ++ "\n")
        ++ traverseListChildren ich d ""
        ++ (traverseListItems post o d
            (if o = true then (traverseListItems pre o d 1 "").1 + 1
              else (traverseListItems pre o d 1 "").1) "").2 := by
  rw [traverseList_eq, traverseListItems_concat, traverseListItems_cons,
    traverseListItem_li _ _ _ _ _ _ _ _ _ ⟨rfl, rfl⟩]
  simp only
  rw [traverseListItems_append post, traverseListItems_append pre]
  simp only
  rw [traverseListChildren_append]

/-! ## Padding -/

theorem stringOf_length (n : Nat) (c : Char) : (stringOf n c).length = n := by
  simp [stringOf, String.length]

theorem padString_eq (s : String) (w : Nat) :
    padString s w = s ++ stringOf (w - s.length) ' ' := by
  unfold padString
  by_cases h : s.length ≥ w
  · have : w - s.length = 0 := by omega
    rw [if_pos h, this]
    exact (String.append_empty s).symm
  · rw [if_neg h]

theorem padString_length (s : String) (w : Nat) :
    (padString s w).length = max s.length w := by
  rw [padString_eq, String.length_append, stringOf_length]
  omega
/-! ## The emitted table against the widths of its columns -/

theorem collected_inv (tableNode : xmlNode) :
    CollectInv (collectRows tableNode.children ([], [])) :=
  collectRows_inv _ _ collectInv_init

theorem list_eq_range_map_getD (l : List Nat) :
    l = (List.range l.length).map (fun i => l.getD i 0) := by
  apply List.ext_getElem
  · simp
  · intro n h1 h2
    simp [List.getD_eq_getElem?_getD, List.getElem?_eq_getElem h1]

theorem code_line_eq_tableLine (rows : List (List String)) (cw : List Nat)
    (hw : ∀ i, cw.getD i 0 = columnWidth rows i) (r : List String) :
    "| " ++ concat (r.enum.map (fun p => padString p.2 (cw.getD p.1 0) ++ " | ")) ++ "\n"
      = tableLine rows r := by
  unfold tableLine
  have : (fun p : Nat × String => padString p.2 (cw.getD p.1 0) ++ " | ")
      = (fun p : Nat × String => padRight p.2 (columnWidth rows p.1) ++ " | ") := by
    funext p
    rw [hw, padString_eq]
    rfl
  rw [this]

theorem code_separator_eq_separatorLine (rows : List (List String)) (cw : List Nat)
    (hl : cw.length = columnCount rows) (hw : ∀ i, cw.getD i 0 = columnWidth rows i) :
    "| " ++ concat ((tableSeparator cw).map (fun sep => sep ++ " | ")) ++ "\n"
      = separatorLine rows := by
  unfold separatorLine
  rw [tableSeparator_eq, List.map_map]
  have h1 : cw = (List.range (columnCount rows)).map (columnWidth rows) := by
    have := list_eq_range_map_getD cw
    rw [hl] at this
    rw [this]
    apply List.map_congr_left
    intro i _
    exact hw i
  rw [h1, List.map_map]
  rfl

theorem separator_entry (rows : List (List String)) (cw : List Nat)
    (hl : cw.length = columnCount rows) (hw : ∀ i, cw.getD i 0 = columnWidth rows i)
    (i : Nat) (hi : i < columnCount rows) :
    (tableSeparator cw).getD i "" = String.mk (List.replicate (columnWidth rows i) '-') := by
  rw [tableSeparator_eq, List.getD_eq_getElem?_getD, List.getElem?_map,
    List.getElem?_eq_getElem (by omega)]
  have := hw i
  rw [List.getD_eq_getElem?_getD, List.getElem?_eq_getElem (by omega)] at this
  simp only [Option.map_some', Option.getD_some, stringOf]
  rw [← this]
  rfl

theorem handleElement_table (current : xmlNode) (md : String) :
    handleElement current "table" md = (some "\n", traverseTable current md) := by
  have h0 : ¬ (find "table" 'h' = 0 ∧ "table".length = 2 ∧
      isdigit ("table".data.getD 1 ' ') = true) := by decide
  have h1 : ¬ ("table" = "p") := by decide
  have h2 : ¬ ("table" = "strong" ∨ "table" = "b") := by decide
  have h3 : ¬ ("table" = "em" ∨ "table" = "i") := by decide
  have h4 : ¬ ("table" = "a") := by decide
  have h5 : ¬ ("table" = "img") := by decide
  have h6 : ¬ ("table" = "ul" ∨ "table" = "ol") := by decide
  have h7 : ¬ ("table" = "pre") := by decide
  have h8 : ¬ ("table" = "code") := by decide
  have h9 : "\n" ≠ "" := by decide
  unfold handleElement
  simp only [h0, h1, h2, h3, h4, h5, h6, h7, h8, if_false, if_true]
  rw [if_pos h9]

theorem traverse_table (c : String) (p : List (String × String)) (ch next : List xmlNode)
    (md : String) :
    traverse (xmlNode.mk .XML_ELEMENT_NODE "table" c p ch :: next) md
      = traverse next (traverseTable (xmlNode.mk .XML_ELEMENT_NODE "table" c p ch) md ++ "\n") := by
  rw [traverse_cons, traverseNode_element _ _ _ _ _ (by decide), handleElement_table]

theorem traverseTable_spec (tableNode : xmlNode) (md : String) (header : List String)
    (rest : List (List String))
    (h : (collectRows tableNode.children ([], [])).1 = header :: rest) :
    traverseTable tableNode md
      = md ++ tableLine (header :: rest) header ++ separatorLine (header :: rest)
        ++ concat (rest.map (tableLine (header :: rest))) := by
  obtain ⟨hl, hw, -⟩ := collected_inv tableNode
  rw [h] at hl hw
  rw [traverseTable_eq tableNode md header rest h,
    code_line_eq_tableLine (header :: rest) _ hw header,
    code_separator_eq_separatorLine (header :: rest) _ hl hw]
  have : (fun row : List String => "| " ++ concat (row.enum.map (fun p =>
        padString p.2 ((collectRows tableNode.children ([], [])).2.getD p.1 0) ++ " | "))
        ++ "\n")
      = tableLine (header :: rest) := by
    funext row
    exact code_line_eq_tableLine (header :: rest) _ hw row
  rw [this]

theorem concat_map_ends {α : Type} (f : α → String) (l : List α) (h : l ≠ []) :
    ∃ pre : String, concat (l.map f) = pre ++ f (l.getLast h) := by
  refine ⟨concat (l.dropLast.map f), ?_⟩
  conv_lhs => rw [← List.dropLast_append_getLast h]
  rw [List.map_append, concat_append]
  simp [concat]

theorem tableLine_ends (rows : List (List String)) (r : List String) (hr : r ≠ []) :
    ∃ pre : String, tableLine rows r = pre ++ "| \n" := by
  have hne : r.enum ≠ [] := by
    intro h
    apply hr
    have := congrArg List.length h
    simpa using this
  obtain ⟨pre, hpre⟩ := concat_map_ends
    (fun p : Nat × String => padRight p.2 (columnWidth rows p.1) ++ " | ") r.enum hne
  refine ⟨"| " ++ pre ++ padRight (r.enum.getLast hne).2 (columnWidth rows (r.enum.getLast hne).1)
    ++ " ", ?_⟩
  unfold tableLine
  rw [hpre]
  simp only [String.append_assoc]
  rfl

theorem separatorLine_ends (rows : List (List String)) (h : 0 < columnCount rows) :
    ∃ pre : String, separatorLine rows = pre ++ "| \n" := by
  have hne : List.range (columnCount rows) ≠ [] := by
    intro hc
    have := congrArg List.length hc
    simp at this
    omega
  obtain ⟨pre, hpre⟩ := concat_map_ends
    (fun i => String.mk (List.replicate (columnWidth rows i) '-') ++ " | ")
    (List.range (columnCount rows)) hne
  refine ⟨"| " ++ pre ++ String.mk (List.replicate
    (columnWidth rows ((List.range (columnCount rows)).getLast hne)) '-') ++ " ", ?_⟩
  unfold separatorLine
  rw [hpre]
  simp only [String.append_assoc]
  rfl

theorem columnCount_pos (header : List String) (rest : List (List String))
    (h : header ≠ []) : 0 < columnCount (header :: rest) := by
  unfold columnCount
  have : 0 < header.length := List.length_pos.2 h
  simp only [List.map_cons, List.foldr_cons]
  omega
/-! ## The inline extractor, tag by tag -/

theorem getNodeContent_eq (t : xmlElementType) (n c : String) (p : List (String × String))
    (ch : List xmlNode) : getNodeContent (.mk t n c p ch) = getNodeContentLoop ch := by
  rw [getNodeContent]

theorem getNodeContentLoop_nil : getNodeContentLoop [] = "" := by
  rw [getNodeContentLoop]

theorem getNodeContentLoop_append (a b : List xmlNode) :
    getNodeContentLoop (a ++ b) = getNodeContentLoop a ++ getNodeContentLoop b := by
  induction a with
  | nil => simp [getNodeContentLoop_nil]
  | cons x xs ih =>
    rw [List.cons_append, getNodeContentLoop, getNodeContentLoop, ih]
    simp only [String.append_assoc]

theorem getNodeContentLoop_strong (n c : String) (p : List (String × String))
    (ch next : List xmlNode) (hn : n = "strong" ∨ n = "b") :
    getNodeContentLoop (xmlNode.mk .XML_ELEMENT_NODE n c p ch :: next)
      = "**" ++ getNodeContent (xmlNode.mk .XML_ELEMENT_NODE n c p ch) ++ "**"
        ++ getNodeContentLoop next := by
  rw [getNodeContentLoop]
  rcases hn with h | h <;> subst h <;> simp [xmlNode.type, xmlNode.name]

theorem getNodeContentLoop_em (n c : String) (p : List (String × String))
    (ch next : List xmlNode) (hn : n = "em" ∨ n = "i") :
    getNodeContentLoop (xmlNode.mk .XML_ELEMENT_NODE n c p ch :: next)
      = "*" ++ getNodeContent (xmlNode.mk .XML_ELEMENT_NODE n c p ch) ++ "*"
        ++ getNodeContentLoop next := by
  rw [getNodeContentLoop]
  rcases hn with h | h <;> subst h <;> simp [xmlNode.type, xmlNode.name]

theorem getNodeContentLoop_a (c : String) (p : List (String × String))
    (ch next : List xmlNode) :
    getNodeContentLoop (xmlNode.mk .XML_ELEMENT_NODE "a" c p ch :: next)
      = "[" ++ getNodeContent (xmlNode.mk .XML_ELEMENT_NODE "a" c p ch) ++ "]("
        ++ getAttribute (xmlNode.mk .XML_ELEMENT_NODE "a" c p ch) "href" ++ ")"
        ++ getNodeContentLoop next := by
  rw [getNodeContentLoop]
  simp [xmlNode.type, xmlNode.name]

theorem getNodeContentLoop_img (c : String) (p : List (String × String))
    (ch next : List xmlNode) :
    getNodeContentLoop (xmlNode.mk .XML_ELEMENT_NODE "img" c p ch :: next)
      = "![" ++ getAttribute (xmlNode.mk .XML_ELEMENT_NODE "img" c p ch) "alt" ++ "]("
        ++ getAttribute (xmlNode.mk .XML_ELEMENT_NODE "img" c p ch) "src" ++ ")"
        ++ getNodeContentLoop next := by
  rw [getNodeContentLoop]
  simp [xmlNode.type, xmlNode.name]

theorem getNodeContentLoop_code (c : String) (p : List (String × String))
    (ch next : List xmlNode) :
    getNodeContentLoop (xmlNode.mk .XML_ELEMENT_NODE "code" c p ch :: next)
      = "`" ++ getNodeContent (xmlNode.mk .XML_ELEMENT_NODE "code" c p ch) ++ "`"
        ++ getNodeContentLoop next := by
  rw [getNodeContentLoop]
  simp [xmlNode.type, xmlNode.name]

/-- An element without an inline rule contributes the text of its children. -/
theorem getNodeContentLoop_plain (n c : String) (p : List (String × String))
    (ch next : List xmlNode) (he : n ≠ "")
    (hn : n ∉ ["strong", "b", "em", "i", "a", "img", "code"]) :
    getNodeContentLoop (xmlNode.mk .XML_ELEMENT_NODE n c p ch :: next)
      = getNodeContent (xmlNode.mk .XML_ELEMENT_NODE n c p ch) ++ getNodeContentLoop next := by
  simp only [List.mem_cons, List.mem_singleton, not_or, List.mem_nil_iff, not_false_eq_true,
    and_true] at hn
  obtain ⟨h1, h2, h3, h4, h5, h6, h7⟩ := hn
  rw [getNodeContentLoop]
  simp [xmlNode.type, xmlNode.name, he, h1, h2, h3, h4, h5, h6, h7]

theorem getNodeContentLoop_text (n t : String) (p : List (String × String))
    (ch next : List xmlNode) :
    getNodeContentLoop (xmlNode.mk .XML_TEXT_NODE n t p ch :: next)
      = eraseTrailing t ++ getNodeContentLoop next := by
  rw [getNodeContentLoop]
  simp [xmlNode.type, xmlNode.content]
/-! ## The block dispatcher on the inline tags and on lists -/

theorem handleElement_strong (current : xmlNode) (tagName md : String)
    (hn : tagName = "strong" ∨ tagName = "b") :
    handleElement current tagName md
      = (some ("**" ++ getNodeContent current ++ "**"), md) := by
  have hne : "**" ++ getNodeContent current ++ "**" ≠ "" :=
    append_ne_empty_right _ _ (by decide)
  unfold handleElement
  rcases hn with h | h <;> subst h
  · have h0 : ¬ (find "strong" 'h' = 0 ∧ "strong".length = 2 ∧
        isdigit ("strong".data.getD 1 ' ') = true) := by decide
    have h1 : ¬ ("strong" = "p") := by decide
    simp only [h0, h1, if_false, true_or, if_true]
    rw [if_pos hne]
  · have h0 : ¬ (find "b" 'h' = 0 ∧ "b".length = 2 ∧
        isdigit ("b".data.getD 1 ' ') = true) := by decide
    have h1 : ¬ ("b" = "p") := by decide
    simp only [h0, h1, if_false, or_true, if_true]
    rw [if_pos hne]

theorem handleElement_em (current : xmlNode) (tagName md : String)
    (hn : tagName = "em" ∨ tagName = "i") :
    handleElement current tagName md
      = (some ("*" ++ getNodeContent current ++ "*"), md) := by
  have hne : "*" ++ getNodeContent current ++ "*" ≠ "" :=
    append_ne_empty_right _ _ (by decide)
  unfold handleElement
  rcases hn with h | h <;> subst h
  · have h0 : ¬ (find "em" 'h' = 0 ∧ "em".length = 2 ∧
        isdigit ("em".data.getD 1 ' ') = true) := by decide
    have h1 : ¬ ("em" = "p") := by decide
    have h2 : ¬ ("em" = "strong" ∨ "em" = "b") := by decide
    simp only [h0, h1, h2, if_false, true_or, if_true]
    rw [if_pos hne]
  · have h0 : ¬ (find "i" 'h' = 0 ∧ "i".length = 2 ∧
        isdigit ("i".data.getD 1 ' ') = true) := by decide
    have h1 : ¬ ("i" = "p") := by decide
    have h2 : ¬ ("i" = "strong" ∨ "i" = "b") := by decide
    simp only [h0, h1, h2, if_false, or_true, if_true]
    rw [if_pos hne]

theorem handleElement_a (current : xmlNode) (md : String) :
    handleElement current "a" md
      = (some ("[" ++ getNodeContent current ++ "](" ++ getAttribute current "href" ++ ")"),
          md) := by
  have hne : "[" ++ getNodeContent current ++ "](" ++ getAttribute current "href" ++ ")" ≠ "" :=
    append_ne_empty_right _ _ (by decide)
  have h0 : ¬ (find "a" 'h' = 0 ∧ "a".length = 2 ∧
      isdigit ("a".data.getD 1 ' ') = true) := by decide
  have h1 : ¬ ("a" = "p") := by decide
  have h2 : ¬ ("a" = "strong" ∨ "a" = "b") := by decide
  have h3 : ¬ ("a" = "em" ∨ "a" = "i") := by decide
  unfold handleElement
  simp only [h0, h1, h2, h3, if_false, if_true]
  rw [if_pos hne]

theorem handleElement_img (current : xmlNode) (md : String) :
    handleElement current "img" md
      = (some ("![" ++ getAttribute current "alt" ++ "](" ++ getAttribute current "src" ++ ")"),
          md) := by
  have hne : "![" ++ getAttribute current "alt" ++ "](" ++ getAttribute current "src" ++ ")"
      ≠ "" := append_ne_empty_right _ _ (by decide)
  have h0 : ¬ (find "img" 'h' = 0 ∧ "img".length = 2 ∧
      isdigit ("img".data.getD 1 ' ') = true) := by decide
  have h1 : ¬ ("img" = "p") := by decide
  have h2 : ¬ ("img" = "strong" ∨ "img" = "b") := by decide
  have h3 : ¬ ("img" = "em" ∨ "img" = "i") := by decide
  have h4 : ¬ ("img" = "a") := by decide
  unfold handleElement
  simp only [h0, h1, h2, h3, h4, if_false, if_true]
  rw [if_pos hne]

theorem handleElement_code (current : xmlNode) (md : String) :
    handleElement current "code" md
      = (some ("`" ++ getNodeContent current ++ "`"), md) := by
  have hne : "`" ++ getNodeContent current ++ "`" ≠ "" :=
    append_ne_empty_right _ _ (by decide)
  have h0 : ¬ (find "code" 'h' = 0 ∧ "code".length = 2 ∧
      isdigit ("code".data.getD 1 ' ') = true) := by decide
  have h1 : ¬ ("code" = "p") := by decide
  have h2 : ¬ ("code" = "strong" ∨ "code" = "b") := by decide
  have h3 : ¬ ("code" = "em" ∨ "code" = "i") := by decide
  have h4 : ¬ ("code" = "a") := by decide
  have h5 : ¬ ("code" = "img") := by decide
  have h6 : ¬ ("code" = "ul" ∨ "code" = "ol") := by decide
  have h7 : ¬ ("code" = "pre") := by decide
  unfold handleElement
  simp only [h0, h1, h2, h3, h4, h5, h6, h7, if_false, if_true]
  rw [if_pos hne]

theorem handleElement_list (current : xmlNode) (tagName md : String)
    (hn : tagName = "ul" ∨ tagName = "ol") :
    handleElement current tagName md
      = (some "\n", traverseList current (decide (tagName = "ol")) 0 md) := by
  have hne : "\n" ≠ "" := by decide
  unfold handleElement
  rcases hn with h | h <;> subst h
  · have h0 : ¬ (find "ul" 'h' = 0 ∧ "ul".length = 2 ∧
        isdigit ("ul".data.getD 1 ' ') = true) := by decide
    have h1 : ¬ ("ul" = "p") := by decide
    have h2 : ¬ ("ul" = "strong" ∨ "ul" = "b") := by decide
    have h3 : ¬ ("ul" = "em" ∨ "ul" = "i") := by decide
    have h4 : ¬ ("ul" = "a") := by decide
    have h5 : ¬ ("ul" = "img") := by decide
    simp only [h0, h1, h2, h3, h4, h5, if_false, true_or, if_true]
    rw [if_pos hne]
  · have h0 : ¬ (find "ol" 'h' = 0 ∧ "ol".length = 2 ∧
        isdigit ("ol".data.getD 1 ' ') = true) := by decide
    have h1 : ¬ ("ol" = "p") := by decide
    have h2 : ¬ ("ol" = "strong" ∨ "ol" = "b") := by decide
    have h3 : ¬ ("ol" = "em" ∨ "ol" = "i") := by decide
    have h4 : ¬ ("ol" = "a") := by decide
    have h5 : ¬ ("ol" = "img") := by decide
    simp only [h0, h1, h2, h3, h4, h5, if_false, or_true, if_true]
    rw [if_pos hne]

theorem getAttribute_eq (t : xmlElementType) (n c : String) (p : List (String × String))
    (ch : List xmlNode) (attrName : String) :
    getAttribute (xmlNode.mk t n c p ch) attrName = (p.lookup attrName).getD "" := by
  unfold getAttribute xmlGetProp
  simp only [xmlNode.properties]
  cases p.lookup attrName <;> rfl

theorem stars_merge (t : String) : "**" ++ ("*" ++ t ++ "*") ++ "**" = "***" ++ t ++ "***" := by
  apply String.ext
  simp only [String.data_append]
  simp

theorem traverse_strong (n c : String) (p : List (String × String)) (ch next : List xmlNode)
    (md : String) (hn : n = "strong" ∨ n = "b") :
    traverse (xmlNode.mk .XML_ELEMENT_NODE n c p ch :: next) md
      = traverse next
          (md ++ ("**" ++ getNodeContent (xmlNode.mk .XML_ELEMENT_NODE n c p ch) ++ "**")) := by
  have hne : n ≠ "" := by rcases hn with h | h <;> subst h <;> decide
  rw [traverse_cons, traverseNode_element _ _ _ _ _ hne, handleElement_strong _ _ _ hn]

theorem traverse_em (n c : String) (p : List (String × String)) (ch next : List xmlNode)
    (md : String) (hn : n = "em" ∨ n = "i") :
    traverse (xmlNode.mk .XML_ELEMENT_NODE n c p ch :: next) md
      = traverse next
          (md ++ ("*" ++ getNodeContent (xmlNode.mk .XML_ELEMENT_NODE n c p ch) ++ "*")) := by
  have hne : n ≠ "" := by rcases hn with h | h <;> subst h <;> decide
  rw [traverse_cons, traverseNode_element _ _ _ _ _ hne, handleElement_em _ _ _ hn]
/-! ## Row collection across table sections -/

theorem collectRow_rows (tr : xmlNode) (st : List (List String) × List Nat) :
    (collectRow tr st).1 = st.1 ++ nonEmptyRows [tr] := by
  unfold collectRow nonEmptyRows
  by_cases h : extractRow tr = []
  · simp [h]
  · simp [h]

theorem nonEmptyRows_append (a b : List xmlNode) :
    nonEmptyRows (a ++ b) = nonEmptyRows a ++ nonEmptyRows b := by
  simp [nonEmptyRows]

theorem nonEmptyRows_cons (x : xmlNode) (l : List xmlNode) :
    nonEmptyRows (x :: l) = nonEmptyRows [x] ++ nonEmptyRows l :=
  nonEmptyRows_append [x] l

theorem collectSection_rows (trs : List xmlNode) (st : List (List String) × List Nat) :
    (trs.foldl
        (fun st tr =>
          if tr.type = .XML_ELEMENT_NODE ∧ tr.name = "tr" then collectRow tr st else st)
        st).1
      = st.1 ++ nonEmptyRows
          (trs.filter (fun tr => decide (tr.type = .XML_ELEMENT_NODE ∧ tr.name = "tr"))) := by
  induction trs generalizing st with
  | nil => simp [nonEmptyRows]
  | cons tr rest ih =>
    rw [List.foldl_cons, ih]
    by_cases h : tr.type = .XML_ELEMENT_NODE ∧ tr.name = "tr"
    · rw [if_pos h, collectRow_rows, List.filter_cons_of_pos (by simpa using h),
        nonEmptyRows_cons tr (List.filter _ rest), List.append_assoc]
    · rw [if_neg h, List.filter_cons_of_neg (by simpa using h)]

/-- The rows collected by the first loop of `traverseTable` are, in document order, the
non-empty rows of the `tr` elements of the table. -/
theorem collectRows_rows (children : List xmlNode) (st : List (List String) × List Nat) :
    (collectRows children st).1 = st.1 ++ nonEmptyRows (tableRowNodes children) := by
  unfold collectRows
  induction children generalizing st with
  | nil => simp [nonEmptyRows, tableRowNodes]
  | cons child rest ih =>
    rw [List.foldl_cons, ih, tableRowNodes, nonEmptyRows_append, ← List.append_assoc]
    congr 1
    by_cases h1 : child.type = .XML_ELEMENT_NODE
    · simp only [h1, if_true]
      by_cases h2 : child.name = "thead" ∨ child.name = "tbody" ∨ child.name = "tfoot"
      · simp only [h2, if_true]
        exact collectSection_rows _ _
      · simp only [h2, if_false]
        by_cases h3 : child.name = "tr"
        · simp only [h3, if_true]
          exact collectRow_rows _ _
        · simp only [h3, if_false]
          simp [nonEmptyRows]
    · simp only [h1, if_false]
      simp [nonEmptyRows]

/-- What `traverseTable` writes is determined by the collected rows. -/
theorem traverseTable_congr (t1 t2 : xmlNode) (md : String)
    (h : (collectRows t1.children ([], [])).1 = (collectRows t2.children ([], [])).1) :
    traverseTable t1 md = traverseTable t2 md := by
  cases h2 : (collectRows t2.children ([], [])).1 with
  | nil =>
    rw [traverseTable_empty t2 md h2, traverseTable_empty t1 md (h.trans h2)]
  | cons header rest =>
    rw [traverseTable_spec t2 md header rest h2,
      traverseTable_spec t1 md header rest (h.trans h2)]

theorem tableRowNodes_direct (trs : List xmlNode)
    (h : ∀ r ∈ trs, r.type = .XML_ELEMENT_NODE ∧ r.name = "tr") : tableRowNodes trs = trs := by
  induction trs with
  | nil => rfl
  | cons r rest ih =>
    have hr := h r (List.mem_cons_self _ _)
    have hns : ¬ (r.name = "thead" ∨ r.name = "tbody" ∨ r.name = "tfoot") := by
      rw [hr.2]; decide
    rw [tableRowNodes, ih (fun x hx => h x (List.mem_cons_of_mem _ hx))]
    simp only [hr.1, hr.2, hns, if_true, if_false, List.singleton_append]
    rw [if_neg (by decide)]
    rfl

theorem tableRowNodes_wrapped (groups : List (String × List xmlNode))
    (h : ∀ g ∈ groups, (g.1 = "thead" ∨ g.1 = "tbody" ∨ g.1 = "tfoot") ∧
      ∀ r ∈ g.2, r.type = .XML_ELEMENT_NODE ∧ r.name = "tr") :
    tableRowNodes (groups.map (fun g => elem g.1 g.2)) = (groups.map (fun g => g.2)).flatten := by
  induction groups with
  | nil => rfl
  | cons g rest ih =>
    have hg := h g (List.mem_cons_self _ _)
    rw [List.map_cons, tableRowNodes, ih (fun x hx => h x (List.mem_cons_of_mem _ hx)),
      List.map_cons, List.flatten_cons]
    congr 1
    have h1 : (elem g.1 g.2).type = .XML_ELEMENT_NODE := rfl
    have h2 : (elem g.1 g.2).name = g.1 := rfl
    have h3 : (elem g.1 g.2).children = g.2 := rfl
    rw [if_pos h1, h2, if_pos hg.1, h3]
    apply List.filter_eq_self.2
    intro r hr
    simpa using hg.2 r hr
/-! ## Padded cells and line lengths -/

theorem le_foldr_max (l : List Nat) (x : Nat) (h : x ∈ l) : x ≤ l.foldr max 0 := by
  induction l with
  | nil => simp at h
  | cons a l ih =>
    simp only [List.foldr_cons]
    rcases List.mem_cons.1 h with h | h
    · subst h; exact le_max_left _ _
    · exact le_trans (ih h) (le_max_right _ _)

/-- No cell is longer than the width of its column. -/
theorem cell_le_columnWidth (rows : List (List String)) (r : List String) (hr : r ∈ rows)
    (i : Nat) (hi : i < r.length) : (r.getD i "").length ≤ columnWidth rows i := by
  unfold columnWidth
  apply le_foldr_max
  apply List.mem_map.2
  refine ⟨r.getD i "", ?_, rfl⟩
  apply List.mem_filterMap.2
  refine ⟨r, hr, ?_⟩
  rw [List.getD_eq_getElem?_getD, List.getElem?_eq_getElem hi]
  rfl

theorem length_le_columnCount (rows : List (List String)) (r : List String) (hr : r ∈ rows) :
    r.length ≤ columnCount rows := by
  unfold columnCount
  exact le_foldr_max _ _ (List.mem_map.2 ⟨r, hr, rfl⟩)

theorem concat_length (l : List String) : (concat l).length = (l.map String.length).sum := by
  induction l with
  | nil => rfl
  | cons s ss ih => simp [concat, String.length_append, ih]

theorem padRight_length (s : String) (w : Nat) (h : s.length ≤ w) :
    (padRight s w).length = w := by
  unfold padRight
  rw [String.length_append]
  simp only [String.length, List.length_replicate]
  have : s.data.length ≤ w := h
  omega

/-- The length of the line of a collected row: 3 for "| " and the line feed, and the
width of the column plus 3 for every cell. -/
theorem tableLine_length (rows : List (List String)) (r : List String) (hr : r ∈ rows) :
    (tableLine rows r).length
      = 3 + ((List.range r.length).map (fun i => columnWidth rows i + 3)).sum := by
  unfold tableLine
  rw [String.length_append, String.length_append, concat_length, List.map_map]
  have hmap : r.enum.map (String.length ∘ fun p : Nat × String =>
        padRight p.2 (columnWidth rows p.1) ++ " | ")
      = r.enum.map (fun p : Nat × String => columnWidth rows p.1 + 3) := by
    apply List.map_congr_left
    intro p hp
    have hlt := List.fst_lt_of_mem_enum hp
    have hget := List.mem_enum_iff_getElem?.1 hp
    have hcell : p.2 = r.getD p.1 "" := by
      rw [List.getD_eq_getElem?_getD, hget]; rfl
    simp only [Function.comp, String.length_append]
    rw [padRight_length _ _ (by rw [hcell]; exact cell_le_columnWidth rows r hr p.1 hlt)]
    rfl
  rw [hmap]
  have hfst : r.enum.map (fun p : Nat × String => columnWidth rows p.1 + 3)
      = (List.range r.length).map (fun i => columnWidth rows i + 3) := by
    rw [← List.enum_map_fst r, List.map_map]
    rfl
  rw [hfst]
  have h1 : "| ".length = 2 := rfl
  have h2 : "\n".length = 1 := rfl
  omega

theorem separatorLine_length (rows : List (List String)) :
    (separatorLine rows).length
      = 3 + ((List.range (columnCount rows)).map (fun i => columnWidth rows i + 3)).sum := by
  unfold separatorLine
  rw [String.length_append, String.length_append, concat_length, List.map_map]
  have hmap : (List.range (columnCount rows)).map (String.length ∘ fun i =>
        String.mk (List.replicate (columnWidth rows i) '-') ++ " | ")
      = (List.range (columnCount rows)).map (fun i => columnWidth rows i + 3) := by
    apply List.map_congr_left
    intro i _
    simp only [Function.comp, String.length_append]
    simp only [String.length, List.length_replicate]
    rfl
  rw [hmap]
  have h1 : "| ".length = 2 := rfl
  have h2 : "\n".length = 1 := rfl
  omega

theorem foldr_max_le (l : List Nat) (n : Nat) (h : ∀ x ∈ l, x ≤ n) : l.foldr max 0 ≤ n := by
  induction l with
  | nil => simp
  | cons a l ih =>
    simp only [List.foldr_cons]
    exact max_le (h a (List.mem_cons_self _ _)) (ih (fun x hx => h x (List.mem_cons_of_mem _ hx)))

theorem columnCount_uniform (header : List String) (rest : List (List String))
    (h : ∀ r ∈ header :: rest, r.length = header.length) :
    columnCount (header :: rest) = header.length := by
  apply le_antisymm
  · unfold columnCount
    apply foldr_max_le
    intro x hx
    obtain ⟨r, hr, rfl⟩ := List.mem_map.1 hx
    exact le_of_eq (h r hr)
  · exact length_le_columnCount _ _ (List.mem_cons_self _ _)

theorem emitted_line_eq (rows : List (List String)) (cw : List Nat)
    (hw : ∀ i, cw.getD i 0 = columnWidth rows i) (r : List String) :
    emitCells r cw "| " ++ "\n" = tableLine rows r := by
  rw [emitCells_eq]
  exact code_line_eq_tableLine rows cw hw r

theorem emitted_separator_eq (rows : List (List String)) (cw : List Nat)
    (hl : cw.length = columnCount rows) (hw : ∀ i, cw.getD i 0 = columnWidth rows i) :
    (tableSeparator cw).foldl (fun markdown sep => markdown ++ (sep ++ " | ")) "| " ++ "\n"
      = separatorLine rows := by
  rw [foldl_append_eq (fun sep : String => sep ++ " | ")]
  exact code_separator_eq_separatorLine rows cw hl hw
/-! ## Indices stay in range -/

theorem foldlM_eq_some {α β : Type} (f : β → α → Option β) (g : β → α → β) (l : List α)
    (h : ∀ x ∈ l, ∀ acc, f acc x = some (g acc x)) (a : β) :
    l.foldlM f a = some (l.foldl g a) := by
  induction l generalizing a with
  | nil => rfl
  | cons x xs ih =>
    rw [List.foldlM_cons, h x (List.mem_cons_self _ _) a, List.foldl_cons]
    exact ih (fun y hy => h y (List.mem_cons_of_mem _ hy)) _

/-- When the width vector is at least as long as the row, no access of the cell loop is
out of range, and the loop writes what `emitCells` writes. -/
theorem emitCellsChecked_eq (row : List String) (cw : List Nat) (md : String)
    (h : row.length ≤ cw.length) :
    emitCellsChecked row cw md = some (emitCells row cw md) := by
  unfold emitCellsChecked emitCells
  apply foldlM_eq_some
  intro i hi acc
  have hi1 : i < row.length := List.mem_range.1 hi
  have hi2 : i < cw.length := lt_of_lt_of_le hi1 h
  simp [List.getElem?_eq_getElem hi1, List.getElem?_eq_getElem hi2]

/-- After row collection the width vector is at least as long as every collected row. -/
theorem collected_row_le_widths (tableNode : xmlNode) (r : List String)
    (hr : r ∈ (collectRows tableNode.children ([], [])).1) :
    r.length ≤ (collectRows tableNode.children ([], [])).2.length := by
  rw [(collected_inv tableNode).1]
  exact length_le_columnCount _ r hr

theorem traverseTableChecked_eq (tableNode : xmlNode) (md : String) :
    traverseTableChecked tableNode md = some (traverseTable tableNode md) := by
  unfold traverseTableChecked traverseTable
  by_cases hrows : (collectRows tableNode.children ([], [])).1 = []
  · simp only [hrows, if_true]
  · simp only [hrows, if_false]
    have hpos : 0 < (collectRows tableNode.children ([], [])).1.length :=
      List.length_pos.2 hrows
    have hhead : (collectRows tableNode.children ([], [])).1[0]?
        = some ((collectRows tableNode.children ([], [])).1.getD 0 []) := by
      rw [List.getD_eq_getElem?_getD, List.getElem?_eq_getElem hpos]
      rfl
    have hmem0 : (collectRows tableNode.children ([], [])).1.getD 0 []
        ∈ (collectRows tableNode.children ([], [])).1 := by
      rw [List.getD_eq_getElem?_getD, List.getElem?_eq_getElem hpos]
      exact List.getElem_mem _
    rw [hhead]
    simp only [Option.bind_eq_bind, Option.some_bind]
    rw [emitCellsChecked_eq _ _ _ (collected_row_le_widths tableNode _ hmem0)]
    simp only [Option.some_bind]
    apply foldlM_eq_some
    intro r hr acc
    have hr2 : r < (collectRows tableNode.children ([], [])).1.length := by
      have := List.mem_range'_1.1 hr
      omega
    have hget : (collectRows tableNode.children ([], [])).1[r]?
        = some ((collectRows tableNode.children ([], [])).1.getD r []) := by
      rw [List.getD_eq_getElem?_getD, List.getElem?_eq_getElem hr2]
      rfl
    have hmem : (collectRows tableNode.children ([], [])).1.getD r []
        ∈ (collectRows tableNode.children ([], [])).1 := by
      rw [List.getD_eq_getElem?_getD, List.getElem?_eq_getElem hr2]
      exact List.getElem_mem _
    rw [hget]
    simp only [Option.bind_eq_bind, Option.some_bind]
    rw [emitCellsChecked_eq _ _ _ (collected_row_le_widths tableNode _ hmem)]
    rfl
/-! ## The claims -/

/-- C1. End-to-end scenario: when the parser yields the tree html > body > [h1, p, h2, ol
with two items, table of two rows of two cells] of the specification, `convert` returns
exactly the Markdown text of the specification. -/
theorem C1_scenario_output (htmlReadMemory : String → Option (List xmlNode))
    (self : MarkdownConverter)
    (hparse : htmlReadMemory self.htmlContent = some scenarioDocument) :
    (convert htmlReadMemory self).map Prod.fst
      = .ok "# Simple H1 Header\n\nSimple Paragraph\n\n## Another H2 Header\n\n1. First item\n2. Second item\n\n| A | B | \n| - | - | \n| C | D | \n\n" := by
  have h : traverse scenarioDocument ""
      = "# Simple H1 Header\n\nSimple Paragraph\n\n## Another H2 Header\n\n1. First item\n2. Second item\n\n| A | B | \n| - | - | \n| C | D | \n\n" := by
    decide
  unfold convert
  rw [hparse]
  simp only [h]
  rfl

/-- Witness of C1: a converter whose parser yields the scenario tree. -/
theorem C1_scenario_output_witness :
    (fun _ => some scenarioDocument) (MarkdownConverter.mk "<h1>Simple H1 Header</h1>" "").htmlContent
        = some scenarioDocument ∧
      (convert (fun _ => some scenarioDocument)
          (MarkdownConverter.mk "<h1>Simple H1 Header</h1>" "")).map Prod.fst
        = .ok "# Simple H1 Header\n\nSimple Paragraph\n\n## Another H2 Header\n\n1. First item\n2. Second item\n\n| A | B | \n| - | - | \n| C | D | \n\n" :=
  ⟨rfl, C1_scenario_output _ _ rfl⟩

set_option maxRecDepth 100000 in
theorem testDocument_output :
    traverse testDocument ""
      = "Test# Simple H1 Header\n\nSimple Paragraph\n\n## Another H2 Header\n\n1. First item\n2. Second item\n\n| Row 1, Cell 1 | Row 1, Cell 2 | \n| ------------- | ------------- | \n| Row 2, Cell 1 | Row 2, Cell 2 | \n\n" := by
  decide

/-- C2. The buffer is append-only and the output is the in-order concatenation of the
fragments: traversing the siblings `xs` and then `ys` from a buffer `b` leaves
`b ++ out xs ++ out ys`, where `out s` is what traversing `s` writes to an empty buffer;
and the document of the test yields "Test" followed by the h1, p, h2, ol and table
fragments in document order. -/
theorem C2_append_only_in_order :
    (∀ (b : String) (xs ys : List xmlNode),
      traverse (xs ++ ys) b = b ++ traverse xs "" ++ traverse ys "") ∧
    traverse testDocument ""
      = "Test# Simple H1 Header\n\nSimple Paragraph\n\n## Another H2 Header\n\n1. First item\n2. Second item\n\n| Row 1, Cell 1 | Row 1, Cell 2 | \n| ------------- | ------------- | \n| Row 2, Cell 1 | Row 2, Cell 2 | \n\n" := by
  refine ⟨?_, testDocument_output⟩
  intro b xs ys
  rw [traverse_concat, traverse_append_buffer ys, traverse_append_buffer xs b]

/-- C3. Heading rule: for an element whose tag name is 'h' followed by one digit `d`, with
any subtree, the traversal appends exactly `d` characters '#', one space, the text
`getNodeContent` extracts from the element, and two line feeds, and goes on with the next
sibling without traversing the children; in particular for the tags h1 to h6. -/
theorem C3_heading_rule :
    (∀ (d : Char), '0'.toNat ≤ d.toNat ∧ d.toNat ≤ '9'.toNat →
      ∀ (content : String) (properties : List (String × String))
        (children next : List xmlNode) (md : String),
        traverse
            (xmlNode.mk .XML_ELEMENT_NODE (String.mk ['h', d]) content properties children
              :: next) md
          = traverse next
              (md ++ (String.mk (List.replicate (d.toNat - '0'.toNat) '#') ++ " "
                ++ getNodeContent
                    (xmlNode.mk .XML_ELEMENT_NODE (String.mk ['h', d]) content properties
                      children)
                ++ "\n\n"))) ∧
    (∀ (n : Nat), 1 ≤ n → n ≤ 6 →
      ∀ (content : String) (properties : List (String × String))
        (children next : List xmlNode) (md : String),
        traverse
            (xmlNode.mk .XML_ELEMENT_NODE ("h" ++ toString n) content properties children
              :: next) md
          = traverse next
              (md ++ (String.mk (List.replicate n '#') ++ " "
                ++ getNodeContent
                    (xmlNode.mk .XML_ELEMENT_NODE ("h" ++ toString n) content properties
                      children)
                ++ "\n\n"))) := by
  have main : ∀ (d : Char), '0'.toNat ≤ d.toNat ∧ d.toNat ≤ '9'.toNat →
      ∀ (content : String) (properties : List (String × String))
        (children next : List xmlNode) (md : String),
        traverse
            (xmlNode.mk .XML_ELEMENT_NODE (String.mk ['h', d]) content properties children
              :: next) md
          = traverse next
              (md ++ (String.mk (List.replicate (d.toNat - '0'.toNat) '#') ++ " "
                ++ getNodeContent
                    (xmlNode.mk .XML_ELEMENT_NODE (String.mk ['h', d]) content properties
                      children)
                ++ "\n\n")) := by
    intro d hd content properties children next md
    rw [traverse_cons, traverseNode_element _ _ _ _ _ (mk_cons_ne_empty _ _),
      handleElement_heading _ d md hd]
    rfl
  refine ⟨main, ?_⟩
  intro n h1 h6 content properties children next md
  interval_cases n
  · exact main '1' (by decide) content properties children next md
  · exact main '2' (by decide) content properties children next md
  · exact main '3' (by decide) content properties children next md
  · exact main '4' (by decide) content properties children next md
  · exact main '5' (by decide) content properties children next md
  · exact main '6' (by decide) content properties children next md

/-- Witness of C3: the element h3 with the text "T". -/
theorem C3_heading_rule_witness :
    ('0'.toNat ≤ '3'.toNat ∧ '3'.toNat ≤ '9'.toNat) ∧ (1 ≤ 3 ∧ 3 ≤ 6) ∧
      traverse [xmlNode.mk .XML_ELEMENT_NODE (String.mk ['h', '3']) "" [] [txt "T "]] ""
        = "### T\n\n" ∧
      traverse [xmlNode.mk .XML_ELEMENT_NODE ("h" ++ toString 3) "" [] [txt "T "]] "x"
        = "x### T\n\n" :=
  ⟨by decide, by decide,
    (C3_heading_rule.1 '3' (by decide) "" [] [txt "T "] [] "").trans (by decide),
    (C3_heading_rule.2 3 (by decide) (by decide) "" [] [txt "T "] [] "x").trans (by decide)⟩

/-- C4, as stated, fails: the tag name h7 is not empty and is none of the listed names, yet
the element gets a heading fragment of its own, which differs from the output of
traversing its children. -/
theorem C4_pass_through_counterexample :
    "h7" ≠ "" ∧
      "h7" ∉ ["h1", "h2", "h3", "h4", "h5", "h6", "p", "strong", "b", "em", "i", "a", "img",
        "ul", "ol", "pre", "code", "table"] ∧
      traverse [xmlNode.mk .XML_ELEMENT_NODE "h7" "" [] [txt "x"]] "" = "####### x\n\n" ∧
      traverse [txt "x"] "" = "x" ∧
      traverse [xmlNode.mk .XML_ELEMENT_NODE "h7" "" [] [txt "x"]] ""
        ≠ traverse (xmlNode.mk .XML_ELEMENT_NODE "h7" "" [] [txt "x"]).children "" := by
  decide

/-- C4, amended. Pass-through of tags without a dedicated rule: for an element whose tag
name is not empty and is none of h0 to h9, p, strong, b, em, i, a, img, ul, ol, pre, code,
table, the traversal writes nothing for the element itself: what it appends is exactly
what traversing the children appends, and it goes on with the next sibling. -/
theorem C4_pass_through (name content : String) (properties : List (String × String))
    (children next : List xmlNode) (md : String)
    (hne : name ≠ "")
    (hrule : name ∉ ["h0", "h1", "h2", "h3", "h4", "h5", "h6", "h7", "h8", "h9", "p", "strong",
      "b", "em", "i", "a", "img", "ul", "ol", "pre", "code", "table"]) :
    traverseNode (xmlNode.mk .XML_ELEMENT_NODE name content properties children) md
        = traverse children md ∧
      traverse (xmlNode.mk .XML_ELEMENT_NODE name content properties children :: next) md
        = traverse next (traverse children md) ∧
      traverse [xmlNode.mk .XML_ELEMENT_NODE name content properties children] md
        = md ++ traverse children "" := by
  have hnode : traverseNode (xmlNode.mk .XML_ELEMENT_NODE name content properties children) md
      = traverse children md := by
    rw [traverseNode_element _ _ _ _ _ hne, handleElement_none _ _ _ hrule]
  refine ⟨hnode, ?_, ?_⟩
  · rw [traverse_cons, hnode]
  · rw [traverse_cons, hnode, traverse_nil, traverse_append_buffer]

/-- Witness of C4: the head of the test document, with the title inside, contributes the
plain text "Test". -/
theorem C4_pass_through_witness :
    "head" ≠ "" ∧
      "head" ∉ ["h0", "h1", "h2", "h3", "h4", "h5", "h6", "h7", "h8", "h9", "p", "strong",
        "b", "em", "i", "a", "img", "ul", "ol", "pre", "code", "table"] ∧
      traverse [elem "head" [txt "\n  ", elem "title" [txt "Test"], txt "\n"]] "" = "Test" :=
  ⟨by decide, by decide,
    ((C4_pass_through "head" "" [] [txt "\n  ", elem "title" [txt "Test"], txt "\n"] [] ""
      (by decide) (by decide)).2.2).trans (by decide)⟩

/-- C5. Whitespace policy of text nodes, in the traversal and in the inline extractor: for
a text content `t` (a `std::string`, so shorter than `2 ^ 64`), both emit the same string
`r`; `t = r ++ w` where `w` holds only space, tab, line feed and carriage return; `r` is
empty or its last character is none of the four; and a text node of content `r` emits `r`
again. -/
theorem C5_trailing_whitespace (t : String) (ht : t.length < 2 ^ 64)
    (name : String) (properties : List (String × String)) (children : List xmlNode)
    (ty : xmlElementType) (pname pcontent : String) (pproperties : List (String × String)) :
    getNodeContent
        (xmlNode.mk ty pname pcontent pproperties
          [xmlNode.mk .XML_TEXT_NODE name t properties children])
      = traverse [xmlNode.mk .XML_TEXT_NODE name t properties children] "" ∧
    (∃ w : String,
      t = traverse [xmlNode.mk .XML_TEXT_NODE name t properties children] "" ++ w ∧
      ∀ c ∈ w.data, c = ' ' ∨ c = '\t' ∨ c = '\n' ∨ c = '\r') ∧
    (traverse [xmlNode.mk .XML_TEXT_NODE name t properties children] "" = "" ∨
      ∃ c, (traverse [xmlNode.mk .XML_TEXT_NODE name t properties children] "").data.getLast?
          = some c ∧ c ≠ ' ' ∧ c ≠ '\t' ∧ c ≠ '\n' ∧ c ≠ '\r') ∧
    traverse
        [xmlNode.mk .XML_TEXT_NODE name
          (traverse [xmlNode.mk .XML_TEXT_NODE name t properties children] "")
          properties children] ""
      = traverse [xmlNode.mk .XML_TEXT_NODE name t properties children] "" := by
  simp only [traverse_text, getNodeContent_text, String.empty_append]
  exact ⟨trivial, eraseTrailing_split t ht, eraseTrailing_last t ht, eraseTrailing_idem t ht⟩

/-- Witness of C5: the content "  a \n" emits "  a" (the leading spaces stay), and a
whitespace-only content emits the empty string. -/
theorem C5_trailing_whitespace_witness :
    "  a \n".length < 2 ^ 64 ∧
      traverse [xmlNode.mk .XML_TEXT_NODE "text" "  a \n" [] []] "" = "  a" ∧
      getNodeContent (elem "p" [xmlNode.mk .XML_TEXT_NODE "text" "  a \n" [] []]) = "  a" ∧
      traverse [xmlNode.mk .XML_TEXT_NODE "text" " \t\r\n" [] []] "" = "" ∧
      traverse [xmlNode.mk .XML_TEXT_NODE "text" "  a" [] []] "" = "  a" := by
  have h := C5_trailing_whitespace "  a \n" (by decide) "text" [] [] .XML_ELEMENT_NODE "p" "" []
  have h1 : traverse [xmlNode.mk .XML_TEXT_NODE "text" "  a \n" [] []] "" = "  a" := by decide
  refine ⟨by decide, h1, ?_, by decide, ?_⟩
  · rw [← h1]; exact h.1
  · have := h.2.2.2
    rw [h1] at this
    exact this

/-- C6. Ordered-list numbering: in an ordered list rendered at any depth, the `li` element
that follows the children `pre` is written, right after what `pre` wrote, as
2 x depth spaces, the decimal number `countLi pre + 1` (one more than the number of `li`
elements before it, so 1 for the first, whatever else `pre` holds), ". ", its extracted
text and a line feed; then come its nested lists, and the children after it go on from
`countLi pre + 2`, whatever the nested lists held. A nested ordered list is numbered
from 1 again. -/
theorem C6_ordered_numbering :
    (∀ (t : xmlElementType) (n c : String) (p : List (String × String))
      (pre post : List xmlNode) (ic : String) (ip : List (String × String))
      (ich : List xmlNode) (depth : Nat) (md : String),
      traverseList
          (.mk t n c p (pre ++ xmlNode.mk .XML_ELEMENT_NODE "li" ic ip ich :: post))
          true depth md
        = md ++ (traverseListItems pre true depth 1 "").2
          ++ (String.mk (List.replicate (2 * depth) ' ') ++ toString (countLi pre + 1) ++ ". "
              ++ getNodeContent (xmlNode.mk .XML_ELEMENT_NODE "li" ic ip ich) ++ "\n")
          ++ traverseListChildren ich depth ""
          ++ (traverseListItems post true depth (countLi pre + 2) "").2) ∧
    traverse
        [elem "ol"
          [txt " ",
           elem "li" [txt "A", elem "ol" [elem "li" [txt "B"], txt " ", elem "li" [txt "C"]]],
           elem "p" [txt "x"],
           elem "li" [txt "D"]]] ""
      = "1. ABC\n  1. B\n  2. C\n2. D\n\n" := by
  refine ⟨?_, by decide⟩
  intro t n c p pre post ic ip ich depth md
  rw [traverseList_split, traverseListItems_index_ordered]
  simp only [if_true, stringOf, Nat.mul_comm depth 2, Nat.add_comm 1 (countLi pre),
    String.append_assoc, Nat.add_assoc]

/-- C7. Unordered-list prefix: in an unordered list rendered at depth `d`, every `li`
element child is written, right after what the children before it wrote, as exactly
2 x d spaces, "- ", its extracted text and a line feed; the marker is "- " at every
depth. -/
theorem C7_unordered_prefix :
    (∀ (t : xmlElementType) (n c : String) (p : List (String × String))
      (pre post : List xmlNode) (ic : String) (ip : List (String × String))
      (ich : List xmlNode) (d : Nat) (md : String),
      traverseList
          (.mk t n c p (pre ++ xmlNode.mk .XML_ELEMENT_NODE "li" ic ip ich :: post))
          false d md
        = md ++ (traverseListItems pre false d 1 "").2
          ++ (String.mk (List.replicate (2 * d) ' ') ++ "- "
              ++ getNodeContent (xmlNode.mk .XML_ELEMENT_NODE "li" ic ip ich) ++ "\n")
          ++ traverseListChildren ich d ""
          ++ (traverseListItems post false d 1 "").2) ∧
    traverse
        [elem "ul"
          [elem "li" [txt "A", elem "ul" [elem "li" [txt "B", elem "ul" [elem "li" [txt "C"]]]]],
           elem "li" [txt "D"]]] ""
      = "- ABC\n  - BC\n    - C\n- D\n\n" := by
  refine ⟨?_, by decide⟩
  intro t n c p pre post ic ip ich d md
  rw [traverseList_split, traverseListItems_index_unordered]
  simp only [Bool.false_eq_true, if_false, stringOf, Nat.mul_comm d 2, String.append_assoc]

/-- C9. Padding never truncates: `padString s w` is `s` followed by spaces only, its
length is the larger of `length s` and `w`, so it is at least as long as `s`, and it is
`s` itself when `length s >= w`. -/
theorem C9_padding_never_truncates (s : String) (w : Nat) :
    (∃ k : Nat, padString s w = s ++ String.mk (List.replicate k ' ')) ∧
      (padString s w).length = max s.length w ∧
      (padString s w).length ≥ s.length ∧
      (s.length ≥ w → padString s w = s) := by
  refine ⟨⟨w - s.length, padString_eq s w⟩, padString_length s w, ?_, ?_⟩
  · rw [padString_length]; exact le_max_left _ _
  · intro h
    unfold padString
    rw [if_pos h]

/-- Witness of C9: a cell longer than the width is returned as it is, a shorter one is
filled with spaces. -/
theorem C9_padding_never_truncates_witness :
    "abc".length ≥ 2 ∧ padString "abc" 2 = "abc" ∧ padString "ab" 4 = "ab  " :=
  ⟨by decide, (C9_padding_never_truncates "abc" 2).2.2.2 (by decide), by decide⟩

/-- C8. Column widths and separator row: for a table whose collected rows are
`header :: rest`, the vector `separator` has as many entries as the largest cell count of
any collected row, entry `i` is a run of dashes whose length is the largest length of a
cell at index `i` over the collected rows that have one, and the second line the table
writes is "| ", every entry followed by " | ", and a line feed. -/
theorem C8_separator_column_widths (tableNode : xmlNode) (md : String)
    (header : List String) (rest : List (List String))
    (hrows : (collectRows tableNode.children ([], [])).1 = header :: rest) :
    (tableSeparator (collectRows tableNode.children ([], [])).2).length
        = columnCount (header :: rest) ∧
      (∀ i, i < columnCount (header :: rest) →
        (tableSeparator (collectRows tableNode.children ([], [])).2).getD i ""
            = String.mk (List.replicate (columnWidth (header :: rest) i) '-') ∧
          ((tableSeparator (collectRows tableNode.children ([], [])).2).getD i "").length
            = columnWidth (header :: rest) i) ∧
      traverseTable tableNode md
        = md ++ tableLine (header :: rest) header
          ++ ("| "
            ++ concat ((tableSeparator (collectRows tableNode.children ([], [])).2).map
                (fun sep => sep ++ " | "))
            ++ "\n")
          ++ concat (rest.map (tableLine (header :: rest))) := by
  obtain ⟨hl, hw, -⟩ := collected_inv tableNode
  rw [hrows] at hl hw
  refine ⟨?_, ?_, ?_⟩
  · rw [tableSeparator_eq, List.length_map, hl]
  · intro i hi
    have he := separator_entry (header :: rest) _ hl hw i hi
    refine ⟨he, ?_⟩
    rw [he]
    simp [String.length]
  · rw [code_separator_eq_separatorLine (header :: rest) _ hl hw]
    exact traverseTable_spec tableNode md header rest hrows

/-- Witness of C8: a table with rows of 1, 2, 0 and 1 cells; the row without cells is
discarded and the separator is "----" and "--". -/
theorem C8_separator_column_widths_witness :
    (collectRows raggedTable.children ([], [])).1 = ["a"] :: [["bbb", "cc"], ["dddd"]] ∧
      tableSeparator (collectRows raggedTable.children ([], [])).2 = ["----", "--"] ∧
      columnCount (["a"] :: [["bbb", "cc"], ["dddd"]]) = 2 ∧
      traverseTable raggedTable ""
        = "| a    | \n| ---- | -- | \n| bbb  | cc | \n| dddd | \n" := by
  have h := C8_separator_column_widths raggedTable "" ["a"] [["bbb", "cc"], ["dddd"]]
    (by decide)
  exact ⟨by decide, by decide, by decide, h.2.2.trans (by decide)⟩

/-- C10. Table emission: for a table element whose collected rows (rows without td/th
cells are discarded) are `header :: rest`, the traversal appends the line of the header,
the separator line, the line of every other row in order, and a line feed, where the line
of a row is "| ", each of its own cells right-padded with spaces to the width of its
column and followed by " | ", and a line feed; every line ends with "| \n". -/
theorem C10_table_emission (content : String) (properties : List (String × String))
    (children next : List xmlNode) (md : String)
    (header : List String) (rest : List (List String))
    (hrows : (collectRows children ([], [])).1 = header :: rest) :
    traverse (xmlNode.mk .XML_ELEMENT_NODE "table" content properties children :: next) md
        = traverse next
            (md ++ tableLine (header :: rest) header ++ separatorLine (header :: rest)
              ++ concat (rest.map (tableLine (header :: rest))) ++ "\n") ∧
      (∀ r ∈ header :: rest, ∃ pre : String, tableLine (header :: rest) r = pre ++ "| \n") ∧
      (∃ pre : String, separatorLine (header :: rest) = pre ++ "| \n") := by
  have hinv := collected_inv (xmlNode.mk .XML_ELEMENT_NODE "table" content properties children)
  have hne : ∀ r ∈ header :: rest, r ≠ [] := by
    intro r hr
    apply hinv.2.2 r
    show r ∈ (collectRows children ([], [])).1
    rw [hrows]
    exact hr
  refine ⟨?_, ?_, ?_⟩
  · rw [traverse_table,
      traverseTable_spec (xmlNode.mk .XML_ELEMENT_NODE "table" content properties children)
        md header rest hrows]
  · intro r hr
    exact tableLine_ends _ r (hne r hr)
  · exact separatorLine_ends _ (columnCount_pos header rest (hne header (List.mem_cons_self _ _)))

/-- Witness of C10: the table of the test, two rows of two cells. -/
theorem C10_table_emission_witness :
    (collectRows testTable.children ([], [])).1
        = ["Row 1, Cell 1", "Row 1, Cell 2"] :: [["Row 2, Cell 1", "Row 2, Cell 2"]] ∧
      traverse [testTable] ""
        = "| Row 1, Cell 1 | Row 1, Cell 2 | \n| ------------- | ------------- | \n| Row 2, Cell 1 | Row 2, Cell 2 | \n\n" := by
  have h := C10_table_emission "" [] testTable.children [] ""
    ["Row 1, Cell 1", "Row 1, Cell 2"] [["Row 2, Cell 1", "Row 2, Cell 2"]] (by decide)
  exact ⟨by decide, h.1.trans (by decide)⟩

/-- C11. Top-level list termination: for a ul or ol element met by the traversal, what is
appended is what `traverseList` writes for it at depth 0 (the lines of its items and of
all nested lists) followed by one more line feed; a ul or ol child of a list item is
rendered by the same `traverseList` at depth + 1 and nothing is appended after it. -/
theorem C11_top_level_list_termination :
    (∀ (name : String), name = "ul" ∨ name = "ol" →
      ∀ (content : String) (properties : List (String × String))
        (children next : List xmlNode) (md : String),
        traverse (xmlNode.mk .XML_ELEMENT_NODE name content properties children :: next) md
          = traverse next
              (md ++ traverseList (xmlNode.mk .XML_ELEMENT_NODE name content properties children)
                  (decide (name = "ol")) 0 ""
                ++ "\n")) ∧
    (∀ (name : String), name = "ul" ∨ name = "ol" →
      ∀ (content : String) (properties : List (String × String))
        (children next : List xmlNode) (depth : Nat) (md : String),
        traverseListChildren
            (xmlNode.mk .XML_ELEMENT_NODE name content properties children :: next) depth md
          = traverseListChildren next depth
              (md ++ traverseList (xmlNode.mk .XML_ELEMENT_NODE name content properties children)
                  (decide (name = "ol")) (depth + 1) "")) := by
  refine ⟨?_, ?_⟩
  · intro name hn content properties children next md
    have hne : name ≠ "" := by rcases hn with h | h <;> subst h <;> decide
    rw [traverse_cons, traverseNode_element _ _ _ _ _ hne, handleElement_list _ _ _ hn]
    simp only
    rw [traverseList_append]
  · intro name hn content properties children next depth md
    rw [traverseListChildren_cons]
    have h : (xmlNode.mk .XML_ELEMENT_NODE name content properties children).type
          = .XML_ELEMENT_NODE ∧
        ((xmlNode.mk .XML_ELEMENT_NODE name content properties children).name = "ul" ∨
          (xmlNode.mk .XML_ELEMENT_NODE name content properties children).name = "ol") :=
      ⟨rfl, hn⟩
    rw [if_pos h, traverseList_append]
    rfl

/-- Witness of C11: an ordered list with a nested unordered list ends with one blank
line, and the nested list adds none. -/
theorem C11_top_level_list_termination_witness :
    ("ol" = "ul" ∨ "ol" = "ol") ∧
      traverse
          [elem "ol" [elem "li" [txt "x", elem "ul" [elem "li" [txt "y"]]], elem "li" [txt "z"]],
           elem "p" [txt "after"]] ""
        = "1. xy\n  - y\n2. z\n\nafter\n\n" ∧
      traverseListChildren [elem "ul" [elem "li" [txt "y"]]] 0 "1. xy\n" = "1. xy\n  - y\n" := by
  refine ⟨by decide, ?_, ?_⟩
  · exact (C11_top_level_list_termination.1 "ol" (by decide) "" []
      [elem "li" [txt "x", elem "ul" [elem "li" [txt "y"]]], elem "li" [txt "z"]]
      [elem "p" [txt "after"]] "").trans (by decide)
  · exact (C11_top_level_list_termination.2 "ul" (by decide) "" []
      [elem "li" [txt "y"]] [] 0 "1. xy\n").trans (by decide)

/-- C12. Link rendering: for an element with tag a, the traversal appends, and the inline
extractor produces, "[", the extracted text of the element, "](", the value of the
attribute href or the empty string when there is none, and ")"; so an anchor with href
"http://x" and the text "text" gives "[text](http://x)", and without href "[text]()". -/
theorem C12_link_rendering :
    (∀ (content : String) (properties : List (String × String))
      (children next : List xmlNode) (md : String),
      traverse (xmlNode.mk .XML_ELEMENT_NODE "a" content properties children :: next) md
        = traverse next
            (md ++ ("[" ++ getNodeContent (xmlNode.mk .XML_ELEMENT_NODE "a" content properties children)
              ++ "](" ++ (properties.lookup "href").getD "" ++ ")"))) ∧
    (∀ (content : String) (properties : List (String × String))
      (children next : List xmlNode) (ty : xmlElementType) (pname pcontent : String)
      (pproperties : List (String × String)),
      getNodeContent
          (xmlNode.mk ty pname pcontent pproperties
            (xmlNode.mk .XML_ELEMENT_NODE "a" content properties children :: next))
        = "[" ++ getNodeContent (xmlNode.mk .XML_ELEMENT_NODE "a" content properties children)
          ++ "](" ++ (properties.lookup "href").getD "" ++ ")"
          ++ getNodeContent (xmlNode.mk ty pname pcontent pproperties next)) ∧
    traverse [xmlNode.mk .XML_ELEMENT_NODE "a" "" [("href", "http://x")] [txt "text"]] ""
      = "[text](http://x)" ∧
    traverse [xmlNode.mk .XML_ELEMENT_NODE "a" "" [] [txt "text"]] "" = "[text]()" ∧
    getNodeContent
        (elem "p" [xmlNode.mk .XML_ELEMENT_NODE "a" "" [("href", "http://x")] [txt "text"]])
      = "[text](http://x)" ∧
    getNodeContent (elem "p" [xmlNode.mk .XML_ELEMENT_NODE "a" "" [] [txt "text"]])
      = "[text]()" := by
  refine ⟨?_, ?_, by decide, by decide, by decide, by decide⟩
  · intro content properties children next md
    rw [traverse_cons, traverseNode_element _ _ _ _ _ (by decide), handleElement_a,
      getAttribute_eq]
  · intro content properties children next ty pname pcontent pproperties
    rw [getNodeContent_eq ty, getNodeContentLoop_a, getAttribute_eq, getNodeContent_eq ty]

/-- C13. Nested inline composition: a strong (or b) element whose only child is an em (or
i) element whose only child is a text node of content `T` renders, at block level and
inside another element, as "***", `T` without its trailing whitespace, "***". -/
theorem C13_nested_inline_composition (outer inner : String)
    (houter : outer = "strong" ∨ outer = "b") (hinner : inner = "em" ∨ inner = "i")
    (T : String) (c1 c2 n3 : String) (p1 p2 p3 : List (String × String))
    (ch3 : List xmlNode) (ty : xmlElementType) (pname pcontent : String)
    (pproperties : List (String × String)) :
    traverse
        [xmlNode.mk .XML_ELEMENT_NODE outer c1 p1
          [xmlNode.mk .XML_ELEMENT_NODE inner c2 p2 [xmlNode.mk .XML_TEXT_NODE n3 T p3 ch3]]] ""
      = "***" ++ eraseTrailing T ++ "***" ∧
    getNodeContent
        (xmlNode.mk ty pname pcontent pproperties
          [xmlNode.mk .XML_ELEMENT_NODE outer c1 p1
            [xmlNode.mk .XML_ELEMENT_NODE inner c2 p2 [xmlNode.mk .XML_TEXT_NODE n3 T p3 ch3]]])
      = "***" ++ eraseTrailing T ++ "***" ∧
    eraseTrailing T = traverse [xmlNode.mk .XML_TEXT_NODE n3 T p3 ch3] "" := by
  have hin : getNodeContent
      (xmlNode.mk .XML_ELEMENT_NODE outer c1 p1
        [xmlNode.mk .XML_ELEMENT_NODE inner c2 p2 [xmlNode.mk .XML_TEXT_NODE n3 T p3 ch3]])
      = "*" ++ eraseTrailing T ++ "*" := by
    rw [getNodeContent_eq, getNodeContentLoop_em _ _ _ _ _ hinner, getNodeContentLoop_nil,
      getNodeContent_text, String.append_empty]
  refine ⟨?_, ?_, ?_⟩
  · rw [traverse_strong _ _ _ _ _ _ houter, traverse_nil, hin, String.empty_append, stars_merge]
  · rw [getNodeContent_eq, getNodeContentLoop_strong _ _ _ _ _ houter, getNodeContentLoop_nil,
      hin, String.append_empty, stars_merge]
  · rw [traverse_text, String.empty_append]

/-- Witness of C13: the element strong with the element em with the text "x" inside
renders as "***x***". -/
theorem C13_nested_inline_composition_witness :
    ("strong" = "strong" ∨ "strong" = "b") ∧ ("em" = "em" ∨ "em" = "i") ∧
      traverse [elem "strong" [elem "em" [txt "x"]]] "" = "***x***" ∧
      getNodeContent (elem "p" [elem "b" [elem "i" [txt "x \n"]]]) = "***x***" := by
  refine ⟨by decide, by decide, ?_, ?_⟩
  · exact (C13_nested_inline_composition "strong" "em" (by decide) (by decide) "x" "" "" "text"
      [] [] [] [] .XML_ELEMENT_NODE "p" "" []).1.trans (by decide)
  · exact (C13_nested_inline_composition "b" "i" (by decide) (by decide) "x \n" "" "" "text"
      [] [] [] [] .XML_ELEMENT_NODE "p" "" []).2.1.trans (by decide)

/-- C20. Block dispatch and inline extraction agree on the inline tags: for an element
whose tag is one of strong, b, em, i, a, img, code, what the traversal appends for it is
what the inline extractor produces for a node of which it is the only child. -/
theorem C20_block_inline_agreement (name : String)
    (hname : name ∈ ["strong", "b", "em", "i", "a", "img", "code"])
    (content : String) (properties : List (String × String)) (children : List xmlNode)
    (ty : xmlElementType) (pname pcontent : String) (pproperties : List (String × String)) :
    traverse [xmlNode.mk .XML_ELEMENT_NODE name content properties children] ""
        = getNodeContent
            (xmlNode.mk ty pname pcontent pproperties
              [xmlNode.mk .XML_ELEMENT_NODE name content properties children]) ∧
      ∀ (next : List xmlNode) (md : String),
        traverse (xmlNode.mk .XML_ELEMENT_NODE name content properties children :: next) md
          = traverse next
              (md ++ getNodeContent
                (xmlNode.mk ty pname pcontent pproperties
                  [xmlNode.mk .XML_ELEMENT_NODE name content properties children])) := by
  have key : ∀ (next : List xmlNode) (md : String),
      traverse (xmlNode.mk .XML_ELEMENT_NODE name content properties children :: next) md
        = traverse next
            (md ++ getNodeContent
              (xmlNode.mk ty pname pcontent pproperties
                [xmlNode.mk .XML_ELEMENT_NODE name content properties children])) := by
    intro next md
    simp only [List.mem_cons, List.mem_singleton, List.mem_nil_iff, or_false] at hname
    rcases hname with h | h | h | h | h | h | h
    · rw [traverse_strong _ _ _ _ _ _ (Or.inl h), getNodeContent_eq ty,
        getNodeContentLoop_strong _ _ _ _ _ (Or.inl h), getNodeContentLoop_nil,
        String.append_empty]
    · rw [traverse_strong _ _ _ _ _ _ (Or.inr h), getNodeContent_eq ty,
        getNodeContentLoop_strong _ _ _ _ _ (Or.inr h), getNodeContentLoop_nil,
        String.append_empty]
    · rw [traverse_em _ _ _ _ _ _ (Or.inl h), getNodeContent_eq ty,
        getNodeContentLoop_em _ _ _ _ _ (Or.inl h), getNodeContentLoop_nil,
        String.append_empty]
    · rw [traverse_em _ _ _ _ _ _ (Or.inr h), getNodeContent_eq ty,
        getNodeContentLoop_em _ _ _ _ _ (Or.inr h), getNodeContentLoop_nil,
        String.append_empty]
    · subst h
      rw [traverse_cons, traverseNode_element _ _ _ _ _ (by decide), handleElement_a,
        getNodeContent_eq ty, getNodeContentLoop_a, getNodeContentLoop_nil,
        String.append_empty]
    · subst h
      rw [traverse_cons, traverseNode_element _ _ _ _ _ (by decide), handleElement_img,
        getNodeContent_eq ty, getNodeContentLoop_img, getNodeContentLoop_nil,
        String.append_empty]
    · subst h
      rw [traverse_cons, traverseNode_element _ _ _ _ _ (by decide), handleElement_code,
        getNodeContent_eq ty, getNodeContentLoop_code, getNodeContentLoop_nil,
        String.append_empty]
  refine ⟨?_, key⟩
  rw [key [] "", traverse_nil, String.empty_append]

/-- Witness of C20: an image and a code span, at block level and inside a paragraph. -/
theorem C20_block_inline_agreement_witness :
    "img" ∈ ["strong", "b", "em", "i", "a", "img", "code"] ∧
      traverse [xmlNode.mk .XML_ELEMENT_NODE "img" "" [("src", "a.png"), ("alt", "A")] []] ""
        = "![A](a.png)" ∧
      getNodeContent
          (elem "p" [xmlNode.mk .XML_ELEMENT_NODE "img" "" [("src", "a.png"), ("alt", "A")] []])
        = "![A](a.png)" := by
  have h := (C20_block_inline_agreement "img" (by decide) "" [("src", "a.png"), ("alt", "A")] []
    .XML_ELEMENT_NODE "p" "" []).1
  have h1 : traverse
      [xmlNode.mk .XML_ELEMENT_NODE "img" "" [("src", "a.png"), ("alt", "A")] []] ""
      = "![A](a.png)" := by decide
  exact ⟨by decide, h1, h.symm.trans h1⟩

/-- C14. Nested-list folding and depth-first order: for a list item `li` with a direct
child list `sub` (ul or ol), among the children `a ++ sub :: b` of the item, the line of
the item holds the extracted text of the whole item, the text of `sub` (that of its items)
included; the nested list is then rendered again as lines of its own at depth + 1, right
after the line of the item and before what the following siblings of the item write. -/
theorem C14_nested_list_folding (sname : String) (hsub : sname = "ul" ∨ sname = "ol")
    (t : xmlElementType) (n c : String) (p : List (String × String))
    (pre post : List xmlNode) (ic : String) (ip : List (String × String))
    (a b : List xmlNode) (sc : String) (sp : List (String × String)) (sch : List xmlNode)
    (o : Bool) (d : Nat) (md : String) :
    traverseList
        (.mk t n c p
          (pre ++ xmlNode.mk .XML_ELEMENT_NODE "li" ic ip
              (a ++ xmlNode.mk .XML_ELEMENT_NODE sname sc sp sch :: b) :: post))
        o d md
      = md ++ (traverseListItems pre o d 1 "").2
        ++ (String.mk (List.replicate (2 * d) ' ')
            ++ (if o = true then toString (countLi pre + 1) ++ ". " else "- ")
            ++ (getNodeContentLoop a ++ getNodeContentLoop sch ++ getNodeContentLoop b)
            ++ "\n")
        ++ (traverseListChildren a d ""
            ++ traverseList (xmlNode.mk .XML_ELEMENT_NODE sname sc sp sch)
                (decide (sname = "ol")) (d + 1) ""
            ++ traverseListChildren b d "")
        ++ (traverseListItems post o d (if o = true then countLi pre + 2 else 1) "").2 ∧
    ∀ (x y : List xmlNode) (lc : String) (lp : List (String × String)) (lch : List xmlNode),
      getNodeContentLoop (x ++ xmlNode.mk .XML_ELEMENT_NODE "li" lc lp lch :: y)
        = getNodeContentLoop x ++ getNodeContentLoop lch ++ getNodeContentLoop y := by
  have hne : sname ≠ "" := by rcases hsub with h | h <;> subst h <;> decide
  have hplain : sname ∉ ["strong", "b", "em", "i", "a", "img", "code"] := by
    rcases hsub with h | h <;> subst h <;> decide
  have htext : getNodeContent
      (xmlNode.mk .XML_ELEMENT_NODE "li" ic ip
        (a ++ xmlNode.mk .XML_ELEMENT_NODE sname sc sp sch :: b))
      = getNodeContentLoop a ++ getNodeContentLoop sch ++ getNodeContentLoop b := by
    rw [getNodeContent_eq, getNodeContentLoop_append,
      getNodeContentLoop_plain _ _ _ _ _ hne hplain, getNodeContent_eq]
    simp only [String.append_assoc]
  have hnested : traverseListChildren
      (a ++ xmlNode.mk .XML_ELEMENT_NODE sname sc sp sch :: b) d ""
      = traverseListChildren a d ""
        ++ traverseList (xmlNode.mk .XML_ELEMENT_NODE sname sc sp sch)
            (decide (sname = "ol")) (d + 1) ""
        ++ traverseListChildren b d "" := by
    have hconcat : ∀ (l1 l2 : List xmlNode) (m : String),
        traverseListChildren (l1 ++ l2) d m
          = traverseListChildren l2 d (traverseListChildren l1 d m) := by
      intro l1 l2 m
      induction l1 generalizing m with
      | nil => simp [traverseListChildren_nil]
      | cons x xs ih => simp only [List.cons_append, traverseListChildren_cons, ih]
    have hel : (xmlNode.mk .XML_ELEMENT_NODE sname sc sp sch).type = .XML_ELEMENT_NODE ∧
        ((xmlNode.mk .XML_ELEMENT_NODE sname sc sp sch).name = "ul" ∨
          (xmlNode.mk .XML_ELEMENT_NODE sname sc sp sch).name = "ol") := ⟨rfl, hsub⟩
    rw [hconcat, traverseListChildren_cons, if_pos hel, traverseListChildren_append b,
      traverseList_append]
    rfl
  refine ⟨?_, ?_⟩
  · rw [traverseList_split, htext, hnested]
    cases o
    · rw [traverseListItems_index_unordered]
      simp only [Bool.false_eq_true, if_false, stringOf, Nat.mul_comm d 2]
    · rw [traverseListItems_index_ordered]
      simp only [if_true, stringOf, Nat.mul_comm d 2, Nat.add_comm 1 (countLi pre),
        Nat.add_assoc]
  · intro x y lc lp lch
    rw [getNodeContentLoop_append, getNodeContentLoop_plain _ _ _ _ _ (by decide) (by decide),
      getNodeContent_eq]
    simp only [String.append_assoc]

/-- Witness of C14: the list ul[li["A", ul[li["B"]]], li["C"]] renders as the line "- AB",
the nested line "  - B", the line "- C" and the closing line feed. -/
theorem C14_nested_list_folding_witness :
    ("ul" = "ul" ∨ "ul" = "ol") ∧
      traverseList (elem "ul" [elem "li" [txt "A", elem "ul" [elem "li" [txt "B"]]],
          elem "li" [txt "C"]]) false 0 ""
        = "- AB\n  - B\n- C\n" ∧
      traverse [elem "ul" [elem "li" [txt "A", elem "ul" [elem "li" [txt "B"]]],
          elem "li" [txt "C"]]] ""
        = "- AB\n  - B\n- C\n\n" := by
  refine ⟨by decide, ?_, by decide⟩
  exact (C14_nested_list_folding "ul" (by decide) .XML_ELEMENT_NODE "ul" "" [] []
    [elem "li" [txt "C"]] "" [] [txt "A"] [] "" [] [elem "li" [txt "B"]] false 0 "").1.trans
    (by decide)

/-- C15. No cross-call state: the result of `convert` and the converter it leaves behind
depend on `htmlContent` only, not on the value of `markdown` left by an earlier call;
when a call returns a string, `htmlContent` is unchanged, `markdown` holds that string, and
a second call on the converter left behind returns the same string again. -/
theorem C15_no_cross_call_state (htmlReadMemory : String → Option (List xmlNode))
    (html m1 m2 : String) :
    convert htmlReadMemory (MarkdownConverter.mk html m1)
        = convert htmlReadMemory (MarkdownConverter.mk html m2) ∧
      ∀ (out : String) (after : MarkdownConverter),
        convert htmlReadMemory (MarkdownConverter.mk html m1) = .ok (out, after) →
          after.htmlContent = html ∧ after.markdown = out ∧
            convert htmlReadMemory after = .ok (out, after) := by
  refine ⟨?_, ?_⟩
  · unfold convert
    cases htmlReadMemory html <;> rfl
  · intro out after h
    unfold convert at h ⊢
    cases hp : htmlReadMemory html with
    | none => simp only [hp] at h; cases h
    | some root =>
      simp only [hp] at h
      injection h with h
      injection h with h1 h2
      subst h1
      subst h2
      simp only [hp]
      refine ⟨?_, ?_, ?_⟩ <;> first | rfl | trivial

/-- Witness of C15: two calls in a row on the scenario document return the same text. -/
theorem C15_no_cross_call_state_witness :
    convert (fun _ => some scenarioDocument)
        (MarkdownConverter.mk "<h1>Simple H1 Header</h1>" "left over")
      = .ok (traverse scenarioDocument "",
          MarkdownConverter.mk "<h1>Simple H1 Header</h1>" (traverse scenarioDocument "")) ∧
    convert (fun _ => some scenarioDocument)
        (MarkdownConverter.mk "<h1>Simple H1 Header</h1>" (traverse scenarioDocument ""))
      = .ok (traverse scenarioDocument "",
          MarkdownConverter.mk "<h1>Simple H1 Header</h1>" (traverse scenarioDocument "")) :=
  ⟨rfl,
    ((C15_no_cross_call_state (fun _ => some scenarioDocument) "<h1>Simple H1 Header</h1>"
      "left over" "").2 _ _ rfl).2.2⟩

/-- C16. Parse-failure propagation: `convert` throws exactly when the parser yields no
document, the message is then 'Could not read HTML content.' and no text is returned; when
the parser yields a document, `convert` returns the text the traversal of its root writes
to an empty buffer. -/
theorem C16_parse_failure_propagation (htmlReadMemory : String → Option (List xmlNode))
    (self : MarkdownConverter) :
    ((∃ e, convert htmlReadMemory self = .error e) ↔ htmlReadMemory self.htmlContent = none) ∧
      (htmlReadMemory self.htmlContent = none →
        convert htmlReadMemory self = .error "Could not read HTML content.") ∧
      (∀ root, htmlReadMemory self.htmlContent = some root →
        convert htmlReadMemory self
          = .ok (traverse root "", MarkdownConverter.mk self.htmlContent (traverse root ""))) := by
  have hnone : htmlReadMemory self.htmlContent = none →
      convert htmlReadMemory self = .error "Could not read HTML content." := by
    intro h
    unfold convert
    rw [h]
  have hsome : ∀ root, htmlReadMemory self.htmlContent = some root →
      convert htmlReadMemory self
        = .ok (traverse root "", MarkdownConverter.mk self.htmlContent (traverse root "")) := by
    intro root h
    unfold convert
    rw [h]
  refine ⟨⟨?_, fun h => ⟨_, hnone h⟩⟩, hnone, hsome⟩
  rintro ⟨e, he⟩
  cases hp : htmlReadMemory self.htmlContent with
  | none => rfl
  | some root => rw [hsome root hp] at he; cases he

/-- Witness of C16: a parser that yields no document, and one that yields the scenario
document. -/
theorem C16_parse_failure_propagation_witness :
    convert (fun _ => none) (MarkdownConverter.mk "" "")
        = .error "Could not read HTML content." ∧
      convert (fun _ => some scenarioDocument) (MarkdownConverter.mk "x" "")
        = .ok (traverse scenarioDocument "",
            MarkdownConverter.mk "x" (traverse scenarioDocument "")) :=
  ⟨(C16_parse_failure_propagation (fun _ => none) (MarkdownConverter.mk "" "")).2.1 rfl,
    (C16_parse_failure_propagation (fun _ => some scenarioDocument)
      (MarkdownConverter.mk "x" "")).2.2 scenarioDocument rfl⟩

/-- C17. Table sections are transparent for row collection: the collected rows of a table
are, in document order, the non-empty rows of the `tr` elements that are children of the
table or children of a thead, tbody or tfoot child of it; two tables with the same such
`tr` elements render identically; so a table whose `tr` elements are wrapped, group by
group, in thead, tbody or tfoot elements renders as the table with these `tr` elements as
direct children. -/
theorem C17_sections_transparent :
    (∀ (children : List xmlNode),
      (collectRows children ([], [])).1 = nonEmptyRows (tableRowNodes children)) ∧
    (∀ (c1 c2 : String) (p1 p2 : List (String × String)) (ch1 ch2 next : List xmlNode)
      (md : String),
      tableRowNodes ch1 = tableRowNodes ch2 →
        traverse (xmlNode.mk .XML_ELEMENT_NODE "table" c1 p1 ch1 :: next) md
          = traverse (xmlNode.mk .XML_ELEMENT_NODE "table" c2 p2 ch2 :: next) md) ∧
    (∀ (groups : List (String × List xmlNode)),
      (∀ g ∈ groups, (g.1 = "thead" ∨ g.1 = "tbody" ∨ g.1 = "tfoot") ∧
        ∀ r ∈ g.2, r.type = .XML_ELEMENT_NODE ∧ r.name = "tr") →
      ∀ (c1 c2 : String) (p1 p2 : List (String × String)) (next : List xmlNode) (md : String),
        traverse
            (xmlNode.mk .XML_ELEMENT_NODE "table" c1 p1 (groups.map (fun g => elem g.1 g.2))
              :: next) md
          = traverse
              (xmlNode.mk .XML_ELEMENT_NODE "table" c2 p2 (groups.map (fun g => g.2)).flatten
                :: next) md) := by
  have hrows : ∀ (children : List xmlNode),
      (collectRows children ([], [])).1 = nonEmptyRows (tableRowNodes children) := by
    intro children
    rw [collectRows_rows]
    rfl
  have hsame : ∀ (c1 c2 : String) (p1 p2 : List (String × String))
      (ch1 ch2 next : List xmlNode) (md : String),
      tableRowNodes ch1 = tableRowNodes ch2 →
        traverse (xmlNode.mk .XML_ELEMENT_NODE "table" c1 p1 ch1 :: next) md
          = traverse (xmlNode.mk .XML_ELEMENT_NODE "table" c2 p2 ch2 :: next) md := by
    intro c1 c2 p1 p2 ch1 ch2 next md h
    rw [traverse_table, traverse_table]
    congr 2
    apply traverseTable_congr
    show (collectRows ch1 ([], [])).1 = (collectRows ch2 ([], [])).1
    rw [hrows, hrows, h]
  refine ⟨hrows, hsame, ?_⟩
  intro groups hg c1 c2 p1 p2 next md
  apply hsame
  rw [tableRowNodes_wrapped groups hg]
  symm
  apply tableRowNodes_direct
  intro r hr
  obtain ⟨l, hl, hrl⟩ := List.mem_flatten.1 hr
  obtain ⟨g, hgm, rfl⟩ := List.mem_map.1 hl
  exact (hg g hgm).2 r hrl

/-- Witness of C17: the table of the test with its first row in a thead and its second in
a tbody renders as the table with the two rows as direct children. -/
theorem C17_sections_transparent_witness :
    (∀ g ∈ [("thead", [testRow1]), ("tbody", [testRow2])],
        (g.1 = "thead" ∨ g.1 = "tbody" ∨ g.1 = "tfoot") ∧
          ∀ r ∈ g.2, r.type = .XML_ELEMENT_NODE ∧ r.name = "tr") ∧
      traverse [elem "table" [elem "thead" [testRow1], elem "tbody" [testRow2]]] ""
        = traverse [elem "table" [testRow1, testRow2]] "" ∧
      traverse [elem "table" [testRow1, testRow2]] ""
        = "| Row 1, Cell 1 | Row 1, Cell 2 | \n| ------------- | ------------- | \n| Row 2, Cell 1 | Row 2, Cell 2 | \n\n" := by
  have hg : ∀ g ∈ [("thead", [testRow1]), ("tbody", [testRow2])],
      (g.1 = "thead" ∨ g.1 = "tbody" ∨ g.1 = "tfoot") ∧
        ∀ r ∈ g.2, r.type = .XML_ELEMENT_NODE ∧ r.name = "tr" := by
    intro g hgm
    simp only [List.mem_cons, List.mem_singleton, List.mem_nil_iff, or_false] at hgm
    rcases hgm with h | h <;> subst h <;> simp [testRow1, testRow2, elem, xmlNode.type, xmlNode.name]
  exact ⟨hg,
    C17_sections_transparent.2.2 [("thead", [testRow1]), ("tbody", [testRow2])] hg "" "" [] []
      [] "",
    by decide⟩

/-- C18. Equal-width columns: for a table whose collected rows are `header :: rest`, every
cell at index `i` of a collected row, once padded as `traverseTable` pads it, has exactly
the length of the final width of column `i`, which is the length of the run of dashes
`i` of the separator; hence, when all collected rows have the same number of cells, the
line written for every row is as long as the separator line. -/
theorem C18_equal_width_columns (tableNode : xmlNode) (header : List String)
    (rest : List (List String))
    (hrows : (collectRows tableNode.children ([], [])).1 = header :: rest) :
    (∀ r ∈ header :: rest, ∀ i, i < r.length →
      (padString (r.getD i "") ((collectRows tableNode.children ([], [])).2.getD i 0)).length
          = (collectRows tableNode.children ([], [])).2.getD i 0 ∧
        ((tableSeparator (collectRows tableNode.children ([], [])).2).getD i "").length
          = (collectRows tableNode.children ([], [])).2.getD i 0) ∧
    ((∀ r ∈ header :: rest, r.length = header.length) →
      ∀ r ∈ header :: rest,
        (emitCells r (collectRows tableNode.children ([], [])).2 "| " ++ "\n").length
          = ((tableSeparator (collectRows tableNode.children ([], [])).2).foldl
                (fun markdown sep => markdown ++ (sep ++ " | ")) "| "
              ++ "\n").length) := by
  obtain ⟨hl, hw, -⟩ := collected_inv tableNode
  rw [hrows] at hl hw
  refine ⟨?_, ?_⟩
  · intro r hr i hi
    refine ⟨?_, ?_⟩
    · rw [padString_length, hw i]
      exact max_eq_right (cell_le_columnWidth _ r hr i hi)
    · have hic : i < columnCount (header :: rest) :=
        lt_of_lt_of_le hi (length_le_columnCount _ r hr)
      rw [separator_entry (header :: rest) _ hl hw i hic, hw i]
      simp [String.length]
  · intro hsame r hr
    rw [emitted_line_eq (header :: rest) _ hw r, emitted_separator_eq (header :: rest) _ hl hw,
      tableLine_length _ r hr, separatorLine_length, columnCount_uniform header rest hsame,
      hsame r hr]

/-- Witness of C18: in the table of the test all cells are 13 characters long, and the
three lines written are 35 characters long each. -/
theorem C18_equal_width_columns_witness :
    (collectRows testTable.children ([], [])).1
        = ["Row 1, Cell 1", "Row 1, Cell 2"] :: [["Row 2, Cell 1", "Row 2, Cell 2"]] ∧
      (emitCells ["Row 2, Cell 1", "Row 2, Cell 2"] (collectRows testTable.children ([], [])).2
          "| " ++ "\n").length = 35 ∧
      ((tableSeparator (collectRows testTable.children ([], [])).2).foldl
          (fun markdown sep => markdown ++ (sep ++ " | ")) "| " ++ "\n").length = 35 := by
  have h := (C18_equal_width_columns testTable ["Row 1, Cell 1", "Row 1, Cell 2"]
    [["Row 2, Cell 1", "Row 2, Cell 2"]] (by decide)).2
    (by decide) ["Row 2, Cell 1", "Row 2, Cell 2"] (by decide)
  have h2 : ((tableSeparator (collectRows testTable.children ([], [])).2).foldl
      (fun markdown sep => markdown ++ (sep ++ " | ")) "| " ++ "\n").length = 35 := by decide
  exact ⟨by decide, h.trans h2, h2⟩

/-- C19. Rendering never fails on a parsed tree: `traverse`, `getNodeContent`,
`traverseList` and `traverseTable` are defined by structural recursion over the tree and
return a value on every tree; after row collection the width vector is at least as long
as every collected row, so that in `traverseTable` with every index checked no access is
out of range and the text written is that of `traverseTable`, for every table, also with
ragged rows or without rows. -/
theorem C19_rendering_never_fails :
    (∀ (tableNode : xmlNode) (r : List String),
      r ∈ (collectRows tableNode.children ([], [])).1 →
        r.length ≤ (collectRows tableNode.children ([], [])).2.length) ∧
    (∀ (row : List String) (columnWidths : List Nat) (md : String),
      row.length ≤ columnWidths.length →
        emitCellsChecked row columnWidths md = some (emitCells row columnWidths md)) ∧
    (∀ (tableNode : xmlNode) (md : String),
      traverseTableChecked tableNode md = some (traverseTable tableNode md)) ∧
    (∀ (nodes : List xmlNode) (md : String), ∃ out : String, traverse nodes md = out) ∧
    (∀ (node : xmlNode), ∃ out : String, getNodeContent node = out) ∧
    (∀ (node : xmlNode) (ordered : Bool) (depth : Nat) (md : String),
      ∃ out : String, traverseList node ordered depth md = out) :=
  ⟨collected_row_le_widths, emitCellsChecked_eq, traverseTableChecked_eq,
    fun nodes md => ⟨traverse nodes md, rfl⟩, fun node => ⟨getNodeContent node, rfl⟩,
    fun node ordered depth md => ⟨traverseList node ordered depth md, rfl⟩⟩

/-- Witness of C19: a table with rows of 1, 2 and 1 cells and a table without rows, with
every index checked. -/
theorem C19_rendering_never_fails_witness :
    ["bbb", "cc"] ∈ (collectRows raggedTable.children ([], [])).1 ∧
      ["bbb", "cc"].length ≤ (collectRows raggedTable.children ([], [])).2.length ∧
      traverseTableChecked raggedTable ""
        = some "| a    | \n| ---- | -- | \n| bbb  | cc | \n| dddd | \n" ∧
      traverseTableChecked emptyTable "x" = some "x" := by
  refine ⟨by decide, C19_rendering_never_fails.1 raggedTable ["bbb", "cc"] (by decide), ?_, ?_⟩
  · rw [C19_rendering_never_fails.2.2.1 raggedTable ""]
    exact congrArg some (by decide)
  · rw [C19_rendering_never_fails.2.2.1 emptyTable "x"]
    exact congrArg some (by decide)
end lklibs
